import Mathlib

/-!
Verification development for the FX-Kline technical-analysis engine
(`src/fx_kline/core/ohlc_aggregator.py`).

The Python module is shallowly embedded over exact rationals:

* a pandas timestamp is an integer hour index (`ℤ`); the calendar session
  date of a bar is the floor of its hour index divided by 24, and a weekly
  bucket is the floor of the session date divided by 7 (the epoch day 0 is
  taken to start a week, so buckets are 7 consecutive calendar days, the
  shape `to_period` produces);
* float prices are rationals; Python's `round(x, d)` is exact half-even
  rounding at `d` decimal digits (`roundTo`);
* a possibly-NaN float column is a `List (Option ℚ)` and `dropna` is
  `List.filterMap id`; OHLC rows that survive the loader's `dropna` carry
  plain rationals;
* Python's stable `sorted` is `List.insertionSort` with a total preorder
  (`insertionSort` inserts earlier elements in front of later key-ties,
  which reproduces CPython's stability, also under `reverse=True`).
-/

/-- Half-even ("banker's") rounding of a rational to an integer, the rounding
mode of Python's builtin `round`. -/
def roundHalfEven (x : ℚ) : ℤ :=
  let f : ℤ := ⌊x⌋
  let r : ℚ := x - (f : ℚ)
  if r < 1/2 then f
  else if 1/2 < r then f + 1
  else if f % 2 = 0 then f else f + 1

/-- Python's `round(x, d)`: half-even rounding at `d` decimal digits. -/
def roundTo (d : ℕ) (x : ℚ) : ℚ := (roundHalfEven (x * 10 ^ d) : ℚ) / 10 ^ d

/-- `pandas.Series.dropna` on a possibly-NaN column. -/
def dropna (l : List (Option ℚ)) : List ℚ := l.filterMap id

/-- Arithmetic mean of a list (callers guard emptiness as the source does). -/
def listMean (l : List ℚ) : ℚ := l.sum / (l.length : ℚ)

/-- Maximum of a list with a default for the empty case; the source only
takes maxima of lists it has already checked to be non-empty. -/
def listMaxD (l : List ℚ) (dflt : ℚ) : ℚ :=
  match l with
  | [] => dflt
  | h :: t => t.foldl max h

/-- Minimum of a list with a default for the empty case. -/
def listMinD (l : List ℚ) (dflt : ℚ) : ℚ :=
  match l with
  | [] => dflt
  | h :: t => t.foldl min h

/-- `df.tail(n)`: the last `n` elements. -/
def tailRows {α : Type} (n : ℕ) (l : List α) : List α := l.drop (l.length - n)

/-- Worker for `uniqueFirst`, carrying the values already emitted. -/
def uniqueFirstAux (seen : List ℤ) : List ℤ → List ℤ
  | [] => []
  | h :: t =>
      if h ∈ seen then uniqueFirstAux seen t
      else h :: uniqueFirstAux (h :: seen) t

/-- First occurrences, in order of appearance: `pandas.Series.unique`. -/
def uniqueFirst (l : List ℤ) : List ℤ := uniqueFirstAux [] l

/-- One OHLC row that survived the loader's `dropna` (all fields numeric).
`ts` is the timestamp as an hour index; `opn` is the `open` column. -/
structure Bar where
  ts : ℤ
  opn : ℚ
  high : ℚ
  low : ℚ
  close : ℚ
  deriving Repr, DecidableEq

/-- Calendar session date of a bar (`dt.date` on an hour-indexed instant). -/
def sessionDate (b : Bar) : ℤ := Int.fdiv b.ts 24

/-- Weekly bucket of a bar (`dt.to_period("W-SUN")` up to epoch alignment). -/
def weekBucket (b : Bar) : ℤ := Int.fdiv (sessionDate b) 7

/-- `~0.2%` drift threshold of the trend classifier (`_TREND_THRESHOLD`). -/
def TREND_THRESHOLD : ℚ := 2/1000

/-- `INTRADAY_LOOKBACK_BARS`. -/
def INTRADAY_LOOKBACK_BARS : ℕ := 120

/-- `FOUR_HOUR_LOOKBACK_BARS`. -/
def FOUR_HOUR_LOOKBACK_BARS : ℕ := 60

/-- `DAILY_LOOKBACK_BARS`. -/
def DAILY_LOOKBACK_BARS : ℕ := 60

/-- `INTRADAY_REVERSAL_HOURS`. -/
def INTRADAY_REVERSAL_HOURS : ℕ := 5

/-- `DAILY_REVERSAL_CANDLES`. -/
def DAILY_REVERSAL_CANDLES : ℕ := 3

/-- `Series.rolling(window=w, min_periods=mp).mean()` over an all-valid
column: entry `i` is the mean of the up-to-`w` values ending at `i`, valid
once at least `mp` observations are in the window. -/
def rollingMean (w mp : ℕ) (xs : List ℚ) : List (Option ℚ) :=
  (List.range xs.length).map (fun i =>
    let cnt := min (i + 1) w
    if mp ≤ cnt then some (listMean ((xs.take (i + 1)).drop (i + 1 - cnt)))
    else none)

/-- The guarded slope ratio of `detect_trend`: relative change from the first
to the last valid rolling-mean value, and `0.0` when fewer than two values
exist or the first is zero. -/
def slope_ratio (rolling_mean : List ℚ) : ℚ :=
  if 2 ≤ rolling_mean.length ∧ rolling_mean.headD 0 ≠ 0 then
    (rolling_mean.getLastD 0 - rolling_mean.headD 0) / rolling_mean.headD 0
  else 0

/-- `detect_trend`: blended drift + rolling-mean slope classifier.
Direct translation of the source, including the `max(2, window // 2)`
minimum-period floor and the guards on the slope ratio. -/
def detect_trend (closes : List (Option ℚ)) : String :=
  let cl := dropna closes
  if cl.length < 2 then "SIDEWAYS"
  else
    let start := cl.headD 0
    let last := cl.getLastD 0
    if start = 0 then "SIDEWAYS"
    else
      let pct_change := (last - start) / start
      let window := max 3 (min 20 cl.length)
      let rolling_mean := dropna (rollingMean window (max 2 (window / 2)) cl)
      let blended := (6/10) * pct_change + (4/10) * slope_ratio rolling_mean
      if TREND_THRESHOLD < blended then "UP"
      else if blended < -TREND_THRESHOLD then "DOWN"
      else "SIDEWAYS"

/-- Consecutive differences, `Series.diff()` without its leading NaN. -/
def diffs : List ℚ → List ℚ
  | [] => []
  | [_] => []
  | a :: b :: t => (b - a) :: diffs (b :: t)

/-- `Series.ewm(alpha, min_periods, adjust=False).mean()` for a column whose
possible NaNs all come before the first observation (the shape `compute_rsi`
feeds it: one leading NaN from `diff`, then valid values).  State carries the
running mean and the number of observations so far; an entry is valid once
`min_periods` observations were seen. -/
def ewmWilder (alpha : ℚ) (minPeriods : ℕ) : List (Option ℚ) → List (Option ℚ) :=
  go none 0
where
  go (state : Option ℚ) (cnt : ℕ) : List (Option ℚ) → List (Option ℚ)
    | [] => []
    | none :: t =>
        (if minPeriods ≤ cnt then state else none) :: go state cnt t
    | some x :: t =>
        let m := match state with
                 | none => x
                 | some m => (1 - alpha) * m + alpha * x
        (if minPeriods ≤ cnt + 1 then some m else none) :: go (some m) (cnt + 1) t

/-- The Wilder-smoothed average-gain column of `compute_rsi` (the `diff`'s
leading NaN included, as in the source). -/
def avgGainSeries (period : ℕ) (cl : List ℚ) : List (Option ℚ) :=
  ewmWilder (1 / (period : ℚ)) period
    (none :: (diffs cl).map (fun d => some (max d 0)))

/-- The Wilder-smoothed average-loss column of `compute_rsi`. -/
def avgLossSeries (period : ℕ) (cl : List ℚ) : List (Option ℚ) :=
  ewmWilder (1 / (period : ℚ)) period
    (none :: (diffs cl).map (fun d => some (max (-d) 0)))

/-- The RSI column before the final `dropna`: `100 - 100/(1+rs)` where
`rs = avg_gain / avg_loss` and a zero average loss was replaced by NaN
(`avg_loss.replace(0, nan)`), so the entry is NaN whenever either input is
NaN or the average loss is zero. -/
def rsiSeries (period : ℕ) (cl : List ℚ) : List (Option ℚ) :=
  List.zipWith (fun g l =>
      match g, l with
      | some g, some l =>
          if l = 0 then none else some (100 - 100 / (1 + g / l))
      | _, _ => none)
    (avgGainSeries period cl) (avgLossSeries period cl)

/-- `compute_rsi`: Wilder-smoothed RSI with the source's edge-case ladder for
an all-NaN smoothed series. -/
def compute_rsi (closes : List (Option ℚ)) (period : ℕ) : Option ℚ :=
  let cl := dropna closes
  if cl.length < 2 then none
  else
    let rsi := dropna (rsiSeries period cl)
    match rsi.getLast? with
    | some v => some (roundTo 2 v)
    | none =>
        let latest_gain := ((dropna (avgGainSeries period cl)).getLast?).getD 0
        let latest_loss := ((dropna (avgLossSeries period cl)).getLast?).getD 0
        if 0 < latest_gain ∧ latest_loss = 0 then some 100
        else if 0 < latest_loss ∧ latest_gain = 0 then some 0
        else if latest_gain = 0 ∧ latest_loss = 0 then some 50
        else if 0 < latest_gain ∧ 0 < latest_loss then
          some (roundTo 2 (100 - 100 / (1 + latest_gain / latest_loss)))
        else none

/-- The true-range column of `compute_atr`.  The first row's previous close
is NaN, and pandas' row-wise `max` skips NaN, leaving `|high - low|`. -/
def trueRangeList : List Bar → List ℚ
  | [] => []
  | b0 :: rest =>
      |b0.high - b0.low| ::
        (List.zipWith
          (fun prev b =>
            max |b.high - b.low| (max |b.high - prev.close| |b.low - prev.close|))
          (b0 :: rest) rest)

/-- The rolling-mean ATR column (`window = period`,
`min_periods = min(period, len)`). -/
def atrRollingSeries (period : ℕ) (df : List Bar) : List (Option ℚ) :=
  rollingMean period (min period (trueRangeList df).length) (trueRangeList df)

/-- `compute_atr`: last valid rolling mean of true ranges, with the source's
fallback to the plain mean of all true ranges when the rolling column is
entirely NaN. -/
def compute_atr (df : List Bar) (period : ℕ) : Option ℚ :=
  if df.length < 2 then none
  else
    let tr := trueRangeList df
    let atr_value : Option ℚ :=
      match (dropna (atrRollingSeries period df)).getLast? with
      | some v => some v
      | none => if tr.isEmpty then none else some (listMean tr)
    match atr_value with
    | none => none
    | some v => some (roundTo 4 v)

/-- Close-to-close percentage changes (`Series.pct_change().dropna()`).  A
zero previous close yields a float infinity in the source; this embedding
drops it like a NaN, which is only ever observed on paths this development
proves unreachable. -/
def pctChange (closes : List ℚ) : List ℚ :=
  (List.zipWith (fun prev x => if prev = 0 then none else some ((x - prev) / prev))
    closes closes.tail).filterMap id

/-- Sample variance, standing in for the source's `returns.std()` (a square
root, irrational in general).  `compute_average_volatility` only reaches this
branch with an empty `returns` list — the high/low column is empty exactly
when the frame is, and then there are no returns — so the representative
value is never observed; it is kept non-negative so that every bound proved
below would survive even on that dead branch. -/
def sampleStdModel (l : List ℚ) : Option ℚ :=
  if l.length < 2 then none
  else some ((l.map (fun x => (x - listMean l) ^ 2)).sum / ((l.length : ℚ) - 1))

/-- `compute_average_volatility`: mean intrabar high-low range, falling back
to the dispersion of close-to-close returns. -/
def compute_average_volatility (df : List Bar) : Option ℚ :=
  let hl_range := df.map (fun b => b.high - b.low)
  let volatility : Option ℚ :=
    if hl_range.isEmpty then none else some (listMean hl_range)
  match volatility with
  | some v => some (roundTo 4 v)
  | none =>
      match sampleStdModel (pctChange (df.map (fun b => b.close))) with
      | some v => some (roundTo 4 v)
      | none => none

/-- A level candidate: price and provenance timestamp (`LevelCandidate`). -/
abbrev Cand : Type := ℚ × ℤ

instance : Inhabited Bar := ⟨⟨0, 0, 0, 0, 0⟩⟩

/-- Take the first maximum of `h :: t` under `key`, as Python's `max` with a
`key` does (later elements replace the best only when strictly greater). -/
def maxByFirst {α β : Type} [LinearOrder β] (key : α → β) (h : α) (t : List α) : α :=
  t.foldl (fun b x => if key b < key x then x else b) h

/-- Take the first minimum of `h :: t` under `key` (`idxmin` keeps the first
row attaining the minimum). -/
def minByFirst {α β : Type} [LinearOrder β] (key : α → β) (h : α) (t : List α) : α :=
  t.foldl (fun b x => if key x < key b then x else b) h

/-- `sorted(levels, reverse=not is_support)` on bare price levels. -/
def sortLevels (is_support : Bool) (levels : List ℚ) : List ℚ :=
  if is_support then List.insertionSort (fun a b : ℚ => a ≤ b) levels
  else List.insertionSort (fun a b : ℚ => b ≤ a) levels

/-- `sorted(candidates, key=price, reverse=not is_support)`. -/
def sortCandsByPrice (is_support : Bool) (cands : List Cand) : List Cand :=
  if is_support then List.insertionSort (fun a b : Cand => a.1 ≤ b.1) cands
  else List.insertionSort (fun a b : Cand => b.1 ≤ a.1) cands

/-- The deduplication loop of `_rank_levels`: prices are rounded to 4 digits
and only the first candidate per rounded price is kept (the `seen` set of
formatted keys). -/
def dedupRound4 (seen : List ℚ) : List Cand → List Cand
  | [] => []
  | c :: rest =>
      let r := roundTo 4 c.1
      if r ∈ seen then dedupRound4 seen rest
      else (r, c.2) :: dedupRound4 (r :: seen) rest

/-- Distance-priority order of `_rank_levels`: absolute distance to the last
close ascending, then recency descending (the `(|p - last_close|, -ts)` sort
key). Key-ties keep input order, as Python's stable sort does. -/
def distanceRel (last_close : ℚ) (a b : Cand) : Prop :=
  |a.1 - last_close| < |b.1 - last_close| ∨
    (|a.1 - last_close| = |b.1 - last_close| ∧ b.2 ≤ a.2)

instance (last_close : ℚ) : DecidableRel (distanceRel last_close) := by
  intro a b; unfold distanceRel; infer_instance

/-- Structure-priority order of `_rank_levels`: candidate timestamp
ascending (oldest first), then distance to the last close. -/
def structureRel (last_close : ℚ) (a b : Cand) : Prop :=
  a.2 < b.2 ∨ (a.2 = b.2 ∧ |a.1 - last_close| ≤ |b.1 - last_close|)

instance (last_close : ℚ) : DecidableRel (structureRel last_close) := by
  intro a b; unfold structureRel; infer_instance

/-- The price-constraint filter of `_rank_levels`: drop candidates below
`min_price` and above `max_price`. -/
def applyPriceConstraints (min_price max_price : Option ℚ) (unique : List Cand) :
    List Cand :=
  let f1 := match min_price with
    | none => unique
    | some m => unique.filter (fun c => decide (m ≤ c.1))
  match max_price with
  | none => f1
  | some m => f1.filter (fun c => decide (c.1 ≤ m))

/-- `_rank_levels`: deduplicate by rounded price, apply the optional price
constraints, fall back to the first unique candidate when the constraints
empty the list, rank by the requested mode, keep `max_levels`, and sort the
prices for presentation. -/
def rank_levels (candidates : List Cand) (last_close : ℚ) (max_levels : ℕ)
    (sort_desc : Bool) (mode : String) (min_price max_price : Option ℚ) : List ℚ :=
  if candidates.isEmpty then []
  else
    let unique := dedupRound4 [] candidates
    let f2 := applyPriceConstraints min_price max_price unique
    let filtered := if f2.isEmpty && !unique.isEmpty then unique.take 1 else f2
    let ranked :=
      if mode = "structure_first" then
        List.insertionSort (structureRel last_close) filtered
      else
        List.insertionSort (distanceRel last_close) filtered
    let selected := (ranked.take max_levels).map (fun c => c.1)
    if sort_desc then List.insertionSort (fun a b : ℚ => b ≤ a) selected
    else List.insertionSort (fun a b : ℚ => a ≤ b) selected

/-- `_fallback_extremes`: the `levels` lowest lows (ascending) and `levels`
highest highs (descending), rounded to 4 digits. -/
def fallback_extremes (df : List Bar) (levels : ℕ) : List ℚ × List ℚ :=
  let lows := df.map (fun b => b.low)
  let highs := df.map (fun b => b.high)
  let supports :=
    List.insertionSort (fun a b : ℚ => a ≤ b)
      (((List.insertionSort (fun a b : ℚ => a ≤ b) lows).take levels).map (roundTo 4))
  let resistances :=
    List.insertionSort (fun a b : ℚ => b ≤ a)
      (((List.insertionSort (fun a b : ℚ => b ≤ a) highs).take levels).map (roundTo 4))
  (supports, resistances)

/-- One step of the zero-tolerance deduplication of `_merge_candidates_by_atr`:
an insertion-ordered association list keyed by rounded price, keeping the more
extreme price, then the more recent timestamp. -/
def insertDedup (is_support : Bool) (c : Cand) : List (ℚ × Cand) → List (ℚ × Cand)
  | [] => [(roundTo 4 c.1, c)]
  | (k, cur) :: rest =>
      if k = roundTo 4 c.1 then
        let repl :=
          if (is_support ∧ c.1 < cur.1) ∨ (¬ is_support ∧ cur.1 < c.1) then c
          else if c.1 = cur.1 ∧ cur.2 < c.2 then c
          else cur
        (k, repl) :: rest
      else (k, cur) :: insertDedup is_support c rest

/-- The clustering loop of `_merge_candidates_by_atr`: append the candidate
to the first cluster holding a member within the tolerance, else open a new
cluster at the end. -/
def placeInClusters (tolerance : ℚ) (clusters : List (List Cand)) (c : Cand) :
    List (List Cand) :=
  match clusters with
  | [] => [[c]]
  | cl :: rest =>
      if cl.any (fun e => decide (|c.1 - e.1| < tolerance)) then (cl ++ [c]) :: rest
      else cl :: placeInClusters tolerance rest c

/-- Representative of one cluster: the most extreme price (farthest from the
global midpoint for supports, highest for resistances), tie-broken by the
most recent timestamp.  The empty case never arises: clusters are built
non-empty. -/
def clusterRep (global_mid : ℚ) (is_support : Bool) (cl : List Cand) : Cand :=
  match cl with
  | [] => (0, 0)
  | h :: t =>
      let extreme_price :=
        if is_support then (maxByFirst (fun c : Cand => |c.1 - global_mid|) h t).1
        else (maxByFirst (fun c : Cand => c.1) h t).1
      match cl.filter (fun c => decide (c.1 = extreme_price)) with
      | [] => (0, 0)
      | h2 :: t2 => maxByFirst (fun c : Cand => c.2) h2 t2

/-- `_merge_candidates_by_atr`: cluster candidates within the ATR tolerance
and keep one representative per cluster; with a non-positive tolerance,
deduplicate by rounded price instead. -/
def merge_candidates_by_atr (candidates : List Cand) (tolerance : ℚ)
    (is_support : Bool) : List Cand :=
  if candidates.isEmpty then []
  else if tolerance ≤ 0 then
    let deduped := candidates.foldl (fun acc c => insertDedup is_support c acc) []
    sortCandsByPrice is_support (deduped.map (fun kv => kv.2))
  else
    let prices := candidates.map (fun c => c.1)
    let global_mid := (listMinD prices 0 + listMaxD prices 0) / 2
    let sorted_candidates := List.insertionSort (fun a b : Cand => a.1 ≤ b.1) candidates
    let clusters := sorted_candidates.foldl (placeInClusters tolerance) []
    let representatives := clusters.map (clusterRep global_mid is_support)
    sortCandsByPrice is_support representatives

/-- `_fill_levels_from_candidates`: reintroduce candidates, most recent
first, that satisfy the price constraints and stay at least the tolerance
away from every already-selected level, until `max_levels` is reached. -/
def fill_levels_from_candidates (current_levels : List ℚ) (candidates : List Cand)
    (tolerance : ℚ) (max_levels : ℕ) (is_support : Bool)
    (min_price max_price : Option ℚ) : List ℚ :=
  if max_levels ≤ current_levels.length then sortLevels is_support current_levels
  else
    let sorted_candidates := List.insertionSort (fun a b : Cand => b.2 ≤ a.2) candidates
    let levels := sorted_candidates.foldl (fun levels c =>
      if max_levels ≤ levels.length then levels
      else if match min_price with
              | some m => decide (c.1 < m)
              | none => false then levels
      else if match max_price with
              | some m => decide (m < c.1)
              | none => false then levels
      else if levels.all (fun e => decide (tolerance ≤ |c.1 - e|)) then levels ++ [c.1]
      else levels) current_levels
    sortLevels is_support levels

/-- The candidate-generation pass of `_compute_intraday_reversals`: for each
session date (most recent first), the session's first-occurring extreme high
and low, confirmed when the five bars that follow it never revisit it. -/
def intraday_candidates (window : List Bar) : List Cand × List Cand :=
  let dates :=
    List.insertionSort (fun a b : ℤ => b ≤ a) (uniqueFirst (window.map sessionDate))
  let support_candidates := dates.filterMap (fun d =>
    match window.filter (fun b => decide (sessionDate b = d)) with
    | [] => none
    | h :: t =>
        let lowBar := minByFirst (fun b : Bar => b.low) h t
        let post_low := (window.filter (fun b => decide (lowBar.ts < b.ts))).take
          INTRADAY_REVERSAL_HOURS
        if INTRADAY_REVERSAL_HOURS ≤ post_low.length ∧
            lowBar.low < listMinD (post_low.map (fun b => b.low)) 0 then
          some (lowBar.low, lowBar.ts)
        else none)
  let resistance_candidates := dates.filterMap (fun d =>
    match window.filter (fun b => decide (sessionDate b = d)) with
    | [] => none
    | h :: t =>
        let highBar := maxByFirst (fun b : Bar => b.high) h t
        let post_high := (window.filter (fun b => decide (highBar.ts < b.ts))).take
          INTRADAY_REVERSAL_HOURS
        if INTRADAY_REVERSAL_HOURS ≤ post_high.length ∧
            listMaxD (post_high.map (fun b => b.high)) 0 < highBar.high then
          some (highBar.high, highBar.ts)
        else none)
  (support_candidates, resistance_candidates)

/-- `_compute_intraday_reversals`: candidates, ATR clustering, constrained
distance-priority ranking, tolerance-respecting fill-in, and the extremes
fallback for a side left empty. -/
def compute_intraday_reversals (df : List Bar) (levels : ℕ) (last_close : ℚ)
    (atr : Option ℚ) : List ℚ × List ℚ :=
  let window := tailRows INTRADAY_LOOKBACK_BARS df
  let sc := (intraday_candidates window).1
  let rc := (intraday_candidates window).2
  let tolerance := atr.getD 0
  let merged_supports := merge_candidates_by_atr sc tolerance true
  let merged_resistances := merge_candidates_by_atr rc tolerance false
  let supports :=
    rank_levels merged_supports last_close levels false "distance" none (some last_close)
  let min_resistance_price :=
    if supports.isEmpty then last_close else max last_close (listMaxD supports 0)
  let resistances :=
    rank_levels merged_resistances last_close levels true "distance"
      (some min_resistance_price) none
  let supports2 :=
    if 0 < tolerance then
      fill_levels_from_candidates supports sc tolerance levels true none (some last_close)
    else supports
  let min_resistance_price2 :=
    if supports2.isEmpty then last_close else max last_close (listMaxD supports2 0)
  let resistances2 :=
    if 0 < tolerance then
      fill_levels_from_candidates resistances rc tolerance levels false
        (some min_resistance_price2) none
    else resistances
  let fb := fallback_extremes window levels
  (if supports2.isEmpty then fb.1 else supports2,
   if resistances2.isEmpty then fb.2 else resistances2)

/-- Weekly aggregation row of `_compute_four_hour_levels`. -/
structure WeekAgg where
  week_high : ℚ
  week_low : ℚ
  week_end : ℤ
  deriving Repr, DecidableEq

instance : Inhabited WeekAgg := ⟨⟨0, 0, 0⟩⟩

/-- The weekly table of `_compute_four_hour_levels`, weeks ascending
(`groupby` sorts its keys). -/
def weeklyAgg (window : List Bar) : List WeekAgg :=
  (List.insertionSort (fun a b : ℤ => a ≤ b) (uniqueFirst (window.map weekBucket))).filterMap
    (fun w =>
      match window.filter (fun b => decide (weekBucket b = w)) with
      | [] => none
      | h :: t =>
          some { week_high := listMaxD ((h :: t).map (fun b => b.high)) 0
                 week_low := listMinD ((h :: t).map (fun b => b.low)) 0
                 week_end := (maxByFirst (fun b : Bar => b.ts) h t).ts })

/-- `_compute_four_hour_levels`: week-over-week breakout necklines, the
extremes fallback when no breakout is found, ATR clustering, and
structure-first ranking. -/
def compute_four_hour_levels (df : List Bar) (levels : ℕ) (last_close : ℚ)
    (atr : Option ℚ) : List ℚ × List ℚ :=
  let window := tailRows FOUR_HOUR_LOOKBACK_BARS df
  let weekly := weeklyAgg window
  let breakout :=
    if 2 ≤ weekly.length then
      let lastW := weekly.getLastD default
      let prevW := (weekly.dropLast).getLastD default
      if prevW.week_high < lastW.week_high ∨ lastW.week_low < prevW.week_low then
        ([(prevW.week_low, prevW.week_end), (lastW.week_low, lastW.week_end)],
         [(prevW.week_high, prevW.week_end), (lastW.week_high, lastW.week_end)])
      else ([], [])
    else (([] : List Cand), ([] : List Cand))
  let cands :=
    if breakout.1.isEmpty && breakout.2.isEmpty then
      let fb := fallback_extremes window levels
      let last_ts := (window.getLastD default).ts
      (fb.1.map (fun p => ((p, last_ts) : Cand)), fb.2.map (fun p => ((p, last_ts) : Cand)))
    else breakout
  let tolerance := atr.getD 0
  let merged_supports := merge_candidates_by_atr cands.1 tolerance true
  let merged_resistances := merge_candidates_by_atr cands.2 tolerance false
  let supports :=
    rank_levels merged_supports last_close levels false "structure_first" none none
  let min_resistance_price :=
    if supports.isEmpty then last_close else max last_close (listMaxD supports 0)
  let resistances :=
    rank_levels merged_resistances last_close levels true "structure_first"
      (some min_resistance_price) none
  let fb := fallback_extremes window levels
  (if supports.isEmpty then fb.1 else supports,
   if resistances.isEmpty then fb.2 else resistances)

/-- Candidate scan of `_compute_daily_reversals`: a bar's high followed by
three consecutive bearish candles is a resistance candidate, its low followed
by three consecutive bullish candles a support candidate. -/
def daily_candidates (window : List Bar) : List Cand × List Cand :=
  let idxs := List.range (window.length - DAILY_REVERSAL_CANDLES)
  let support_candidates := idxs.filterMap (fun idx =>
    let current := window.getD idx default
    let next_slice := (window.drop (idx + 1)).take DAILY_REVERSAL_CANDLES
    if next_slice.length < DAILY_REVERSAL_CANDLES then none
    else if next_slice.all (fun b => decide (b.opn < b.close)) then
      some ((current.low, current.ts) : Cand)
    else none)
  let resistance_candidates := idxs.filterMap (fun idx =>
    let current := window.getD idx default
    let next_slice := (window.drop (idx + 1)).take DAILY_REVERSAL_CANDLES
    if next_slice.length < DAILY_REVERSAL_CANDLES then none
    else if next_slice.all (fun b => decide (b.close < b.opn)) then
      some ((current.high, current.ts) : Cand)
    else none)
  (support_candidates, resistance_candidates)

/-- The ATR guardrail of `_compute_daily_reversals`: with an ATR available,
keep only candidates within `5 * ATR` of the last close. -/
def daily_guardrail (atr : Option ℚ) (last_close : ℚ) (cands : List Cand) : List Cand :=
  match atr with
  | none => cands
  | some a => cands.filter (fun c => decide (|c.1 - last_close| ≤ a * 5))

/-- `_compute_daily_reversals`: three-candle reversal candidates, the ATR
guardrail, structure-first ranking without price constraints, and the
extremes fallback per side. -/
def compute_daily_reversals (df : List Bar) (levels : ℕ) (last_close : ℚ)
    (atr : Option ℚ) : List ℚ × List ℚ :=
  let window := tailRows DAILY_LOOKBACK_BARS df
  let sc := daily_guardrail atr last_close (daily_candidates window).1
  let rc := daily_guardrail atr last_close (daily_candidates window).2
  let supports := rank_levels sc last_close levels false "structure_first" none none
  let resistances := rank_levels rc last_close levels true "structure_first" none none
  let fb := fallback_extremes window levels
  (if supports.isEmpty then fb.1 else supports,
   if resistances.isEmpty then fb.2 else resistances)

/-- ASCII lowercasing of one character, `str.lower()` on the characters the
interval identifiers use. -/
def charLower (c : Char) : Char :=
  if 65 ≤ c.toNat ∧ c.toNat ≤ 90 then Char.ofNat (c.toNat + 32) else c

/-- `interval.lower()`: ASCII lowercasing of the interval identifier. -/
def strLower (s : String) : String := ⟨s.data.map charLower⟩

/-- `compute_support_resistance`: sort the frame by timestamp, dispatch on
the lowercased interval, and replace an empty side with simple extremes over
the full (sorted) frame. -/
def compute_support_resistance (df : List Bar) (interval : String) (levels : ℕ)
    (atr_value : Option ℚ) : List ℚ × List ℚ :=
  let working := List.insertionSort (fun a b : Bar => a.ts ≤ b.ts) df
  if working.isEmpty then ([], [])
  else
    let last_close := (working.getLastD default).close
    let atr_for_levels := match atr_value with
      | some v => some v
      | none => compute_atr working 14
    let lvls :=
      if strLower interval = "1h" then
        compute_intraday_reversals working levels last_close atr_for_levels
      else if strLower interval = "4h" then
        compute_four_hour_levels working levels last_close atr_for_levels
      else if strLower interval = "1d" then
        compute_daily_reversals working levels last_close atr_for_levels
      else fallback_extremes working levels
    let fb := fallback_extremes working levels
    (if lvls.1.isEmpty then fb.1 else lvls.1,
     if lvls.2.isEmpty then fb.2 else lvls.2)

/-- Float comparison `x < y` with a possibly-NaN right operand: a NaN makes
the comparison false, as IEEE comparisons do. -/
def oLt (x : ℚ) (y : Option ℚ) : Bool :=
  match y with
  | none => false
  | some v => decide (x < v)

/-- Float comparison `x > y` with a possibly-NaN right operand. -/
def oGt (x : ℚ) (y : Option ℚ) : Bool :=
  match y with
  | none => false
  | some v => decide (v < x)

/-- `_support_follow_through`: closes stay at or above the EMA for up to two
bars after the event, and the close two bars later (or one, or the same bar
near the end of the window) exceeds the event close. -/
def support_follow_through (closes : List ℚ) (ema_vals : List (Option ℚ)) (idx : ℕ) : Bool :=
  let n := closes.length
  let end_idx := min (idx + 2) (n - 1)
  let stays := (List.range (end_idx + 1 - idx)).all (fun o =>
    ! oLt (closes.getD (idx + o) 0) (ema_vals.getD (idx + o) none))
  if !stays then false
  else if idx + 2 ≤ n - 1 then decide (closes.getD idx 0 < closes.getD (idx + 2) 0)
  else if idx + 1 ≤ n - 1 then decide (closes.getD idx 0 < closes.getD (idx + 1) 0)
  else true

/-- `_resistance_follow_through`: the mirror condition. -/
def resistance_follow_through (closes : List ℚ) (ema_vals : List (Option ℚ)) (idx : ℕ) : Bool :=
  let n := closes.length
  let end_idx := min (idx + 2) (n - 1)
  let stays := (List.range (end_idx + 1 - idx)).all (fun o =>
    ! oGt (closes.getD (idx + o) 0) (ema_vals.getD (idx + o) none))
  if !stays then false
  else if idx + 2 ≤ n - 1 then decide (closes.getD (idx + 2) 0 < closes.getD idx 0)
  else if idx + 1 ≤ n - 1 then decide (closes.getD (idx + 1) 0 < closes.getD idx 0)
  else true

/-- A confirmed support-bounce event at `idx` within the reaction window. -/
def supportEvent (lows closes : List ℚ) (ema_vals : List (Option ℚ)) (idx : ℕ) : Bool :=
  oLt (lows.getD idx 0) (ema_vals.getD idx none) &&
  oGt (closes.getD idx 0) (ema_vals.getD idx none) &&
  support_follow_through closes ema_vals idx

/-- A confirmed resistance-reject event at `idx` within the reaction window. -/
def resistanceEvent (highs closes : List ℚ) (ema_vals : List (Option ℚ)) (idx : ℕ) : Bool :=
  oGt (highs.getD idx 0) (ema_vals.getD idx none) &&
  oLt (closes.getD idx 0) (ema_vals.getD idx none) &&
  resistance_follow_through closes ema_vals idx

/-- One state update of the backward scan: record the index for a side still
unset when its event fires. -/
def reactionStep (psup pres : ℕ → Bool) (st : Option ℕ × Option ℕ) (idx : ℕ) :
    Option ℕ × Option ℕ :=
  ((if st.1 = none ∧ psup idx then some idx else st.1),
   (if st.2 = none ∧ pres idx then some idx else st.2))

/-- The backward scan of `_detect_single_ema_reaction` from index `k` down to
0, stopping early once both sides are recorded. -/
def reactionLoop (psup pres : ℕ → Bool) (st : Option ℕ × Option ℕ) :
    ℕ → Option ℕ × Option ℕ
  | 0 => reactionStep psup pres st 0
  | k + 1 =>
      let st2 := reactionStep psup pres st (k + 1)
      if st2.1.isSome && st2.2.isSome then st2
      else reactionLoop psup pres st2 k

/-- `_detect_single_ema_reaction`: scan the trailing reaction window from the
most recent bar backward and report the most recent event, ties favoring the
support bounce. -/
def detect_single_ema_reaction (df : List Bar) (ema_series : List (Option ℚ))
    (reaction_window : ℕ) : String × Option ℕ :=
  let window := tailRows reaction_window df
  let ema_window := tailRows window.length ema_series
  if window.isEmpty || ema_window.isEmpty then ("none", none)
  else
    let closes := window.map (fun b => b.close)
    let highs := window.map (fun b => b.high)
    let lows := window.map (fun b => b.low)
    let n := window.length
    let st := reactionLoop (supportEvent lows closes ema_window)
      (resistanceEvent highs closes ema_window) (none, none) (n - 1)
    match st.1, st.2 with
    | some s, some r =>
        if n - 1 - s ≤ n - 1 - r then ("support_bounce", some (n - 1 - s))
        else ("resistance_reject", some (n - 1 - r))
    | some s, none => ("support_bounce", some (n - 1 - s))
    | none, some r => ("resistance_reject", some (n - 1 - r))
    | none, none => ("none", none)

/-- The fallback result claim C3 describes, written from the claim's words:
the single best unconstrained candidate under the active ranking mode
(closest to the last close for distance mode, oldest timestamp for
structure-first mode), after the same rounded-price deduplication. -/
def best_unconstrained_candidate (candidates : List Cand) (last_close : ℚ)
    (mode : String) : ℚ :=
  let unique := dedupRound4 [] candidates
  let ranked :=
    if mode = "structure_first" then List.insertionSort (structureRel last_close) unique
    else List.insertionSort (distanceRel last_close) unique
  (ranked.headD (0, 0)).1

/-- The trend classifier exactly as claim C4 words it: identical to
`detect_trend` except that the rolling mean's minimum periods are half the
window (`window // 2`), without the source's floor of 2. -/
def detect_trend_claimC4 (closes : List (Option ℚ)) : String :=
  let cl := dropna closes
  if cl.length < 2 then "SIDEWAYS"
  else
    let start := cl.headD 0
    let last := cl.getLastD 0
    if start = 0 then "SIDEWAYS"
    else
      let pct_change := (last - start) / start
      let window := max 3 (min 20 cl.length)
      let rolling_mean := dropna (rollingMean window (window / 2) cl)
      let blended := (6/10) * pct_change + (4/10) * slope_ratio rolling_mean
      if TREND_THRESHOLD < blended then "UP"
      else if blended < -TREND_THRESHOLD then "DOWN"
      else "SIDEWAYS"

/-- The latest valid Wilder-smoothed gain, `0.0` when none exists (the
`latest_gain` local of `compute_rsi`). -/
def latest_smoothed_gain (period : ℕ) (cl : List ℚ) : ℚ :=
  ((dropna (avgGainSeries period cl)).getLast?).getD 0

/-- The latest valid Wilder-smoothed loss, `0.0` when none exists. -/
def latest_smoothed_loss (period : ℕ) (cl : List ℚ) : ℚ :=
  ((dropna (avgLossSeries period cl)).getLast?).getD 0

/-- The edge-case ladder claim C5 describes, written from the claim's words:
resolve the RSI from the latest smoothed gain/loss pair in priority order —
gain without loss is 100, loss without gain is 0, neither is 50, both
positive computes the RSI from that single pair, anything else is absent. -/
def rsi_edge_resolution (gain loss : ℚ) : Option ℚ :=
  if 0 < gain ∧ loss = 0 then some 100
  else if 0 < loss ∧ gain = 0 then some 0
  else if gain = 0 ∧ loss = 0 then some 50
  else if 0 < gain ∧ 0 < loss then
    some (roundTo 2 (100 - 100 / (1 + gain / loss)))
  else none

/-- First-of: keep an already-recorded scan result, else take the new one. -/
def oget (a b : Option ℕ) : Option ℕ :=
  match a with
  | some x => some x
  | none => b

/-- The greatest index `≤ k` satisfying `P`, scanning downward — the value
the backward reaction scan records for one side. -/
def findTop (P : ℕ → Bool) : ℕ → Option ℕ
  | 0 => if P 0 then some 0 else none
  | k + 1 => if P (k + 1) then some (k + 1) else findTop P k

/-! ### General lemmas about the embedding's primitives -/

lemma mem_insertionSort {α : Type} (r : α → α → Prop) [DecidableRel r] {a : α}
    {l : List α} : a ∈ List.insertionSort r l ↔ a ∈ l :=
  (List.perm_insertionSort r l).mem_iff

lemma dropna_mem {l : List (Option ℚ)} {x : ℚ} (h : x ∈ dropna l) : some x ∈ l := by
  rcases List.mem_filterMap.mp h with ⟨a, ha, hax⟩
  cases a with
  | none => simp at hax
  | some b => simp at hax; subst hax; exact ha

lemma roundHalfEven_nonneg {x : ℚ} (hx : 0 ≤ x) : 0 ≤ roundHalfEven x := by
  have hf : (0 : ℤ) ≤ ⌊x⌋ := Int.le_floor.mpr (by exact_mod_cast hx)
  simp only [roundHalfEven]
  split_ifs <;> omega

lemma roundHalfEven_le_int {x : ℚ} {m : ℤ} (h : x ≤ (m : ℚ)) :
    roundHalfEven x ≤ m := by
  have hf : ⌊x⌋ ≤ m := by
    have := Int.floor_le_floor h
    simpa using this
  have hfx : (⌊x⌋ : ℚ) ≤ x := Int.floor_le x
  simp only [roundHalfEven]
  split_ifs with h1 h2 h3
  · exact hf
  · have hlt : (⌊x⌋ : ℚ) < x := by linarith
    have : (⌊x⌋ : ℚ) < (m : ℚ) := lt_of_lt_of_le hlt h
    have : ⌊x⌋ < m := by exact_mod_cast this
    omega
  · exact hf
  · have heq : x - (⌊x⌋ : ℚ) = 1/2 := le_antisymm (not_lt.mp h2) (not_lt.mp h1)
    have hlt : (⌊x⌋ : ℚ) < x := by linarith
    have : (⌊x⌋ : ℚ) < (m : ℚ) := lt_of_lt_of_le hlt h
    have : ⌊x⌋ < m := by exact_mod_cast this
    omega

lemma roundTo_nonneg (d : ℕ) {x : ℚ} (hx : 0 ≤ x) : 0 ≤ roundTo d x := by
  unfold roundTo
  have h1 : (0 : ℤ) ≤ roundHalfEven (x * 10 ^ d) :=
    roundHalfEven_nonneg (by positivity)
  have h2 : (0 : ℚ) ≤ (roundHalfEven (x * 10 ^ d) : ℚ) := by exact_mod_cast h1
  positivity

lemma roundTo_le_int (d : ℕ) {x : ℚ} {m : ℤ} (h : x ≤ (m : ℚ)) :
    roundTo d x ≤ (m : ℚ) := by
  unfold roundTo
  have hmul : x * 10 ^ d ≤ ((m * 10 ^ d : ℤ) : ℚ) := by
    push_cast
    have : (0 : ℚ) ≤ 10 ^ d := by positivity
    nlinarith
  have h1 : roundHalfEven (x * 10 ^ d) ≤ m * 10 ^ d := roundHalfEven_le_int hmul
  have h2 : (roundHalfEven (x * 10 ^ d) : ℚ) ≤ (m : ℚ) * 10 ^ d := by exact_mod_cast h1
  rw [div_le_iff₀ (by positivity)]
  exact h2

lemma listMean_nonneg {l : List ℚ} (h : ∀ x ∈ l, 0 ≤ x) : 0 ≤ listMean l := by
  unfold listMean
  have h1 : 0 ≤ l.sum := List.sum_nonneg h
  have h2 : (0 : ℚ) ≤ (l.length : ℚ) := by positivity
  exact div_nonneg h1 h2

/-! ### Claim C9 -/

/-- Claim C9: on the empty input series no core analysis function raises:
`detect_trend` returns SIDEWAYS, `compute_rsi`, `compute_atr` and
`compute_average_volatility` return `none`, and
`compute_support_resistance` returns two empty level lists, whatever the
interval, level count, RSI/ATR period, or supplied ATR value. -/
theorem claim_C9_empty_series (interval : String) (levels : ℕ)
    (atr_value : Option ℚ) (period : ℕ) :
    detect_trend [] = "SIDEWAYS" ∧
    compute_rsi [] period = none ∧
    compute_atr [] period = none ∧
    compute_average_volatility [] = none ∧
    compute_support_resistance [] interval levels atr_value = ([], []) :=
  ⟨rfl, rfl, rfl, rfl, rfl⟩

/-! ### Claim C3 -/

/-- Claim C3 counterexample: with candidates at price 90 (older) and 98
(newer), last close 99, and a minimum price of 100 eliminating both,
`_rank_levels` in distance mode returns `[90]`, the first deduplicated
candidate — not the distance-mode best unconstrained candidate, which is 98
(distance 1 versus 9).  The claim, which predicts
`[best_unconstrained_candidate]`, is false at this input. -/
theorem claim_C3_counterexample :
    rank_levels [(90, 0), (98, 1)] 99 2 true "distance" (some 100) none = [90] ∧
    best_unconstrained_candidate [(90, 0), (98, 1)] 99 "distance" = 98 ∧
    rank_levels [(90, 0), (98, 1)] 99 2 true "distance" (some 100) none ≠
      [best_unconstrained_candidate [(90, 0), (98, 1)] 99 "distance"] := by
  have hds : (("distance" : String) = "structure_first") = False := by decide
  refine ⟨?_, ?_, ?_⟩ <;>
    norm_num [rank_levels, best_unconstrained_candidate, dedupRound4,
      applyPriceConstraints, roundTo, roundHalfEven, distanceRel,
      List.insertionSort, List.orderedInsert, List.filter, hds]

/-- Claim C3 (amended): if the min/max price constraints eliminate every
deduplicated candidate of a non-empty candidate list, `_rank_levels` returns
a single level — the first deduplicated candidate in input order (rather
than the best candidate under the active ranking mode) — and never an empty
list. -/
theorem claim_C3_amended (candidates : List Cand) (last_close : ℚ)
    (max_levels : ℕ) (sort_desc : Bool) (mode : String)
    (min_price max_price : Option ℚ)
    (hne : candidates ≠ []) (hml : 1 ≤ max_levels)
    (hconstr : applyPriceConstraints min_price max_price
        (dedupRound4 [] candidates) = []) :
    rank_levels candidates last_close max_levels sort_desc mode min_price max_price
      = [((dedupRound4 [] candidates).headD (0, 0)).1] := by
  obtain ⟨c, rest, rfl⟩ := List.exists_cons_of_ne_nil hne
  have hu : dedupRound4 [] (c :: rest)
      = (roundTo 4 c.1, c.2) :: dedupRound4 [roundTo 4 c.1] rest := by
    simp [dedupRound4]
  obtain ⟨k, rfl⟩ : ∃ k, max_levels = k + 1 := by
    cases max_levels with
    | zero => omega
    | succ k => exact ⟨k, rfl⟩
  simp only [rank_levels, hu, hconstr, List.isEmpty_cons, List.isEmpty_nil,
    Bool.not_false, Bool.and_self, if_true, List.take_succ_cons, List.take_nil]
  rw [hu] at hconstr
  simp only [hconstr]
  cases sort_desc <;> by_cases hm : mode = "structure_first" <;>
    simp [hm, List.insertionSort, List.orderedInsert, hu]

/-- Witness for the amended claim C3 at the concrete counterexample input. -/
theorem claim_C3_amended_witness :
    rank_levels [(90, 0), (98, 1)] 99 2 true "distance" (some 100) none
      = [((dedupRound4 [] [((90 : ℚ), (0 : ℤ)), (98, 1)]).headD (0, 0)).1] :=
  claim_C3_amended [(90, 0), (98, 1)] 99 2 true "distance" (some 100) none
    (by simp) (by norm_num)
    (by norm_num [applyPriceConstraints, dedupRound4, roundTo, roundHalfEven,
      List.filter])

lemma dropna_nil : dropna [] = [] := rfl

lemma dropna_cons_some (x : ℚ) (l : List (Option ℚ)) :
    dropna (some x :: l) = x :: dropna l := by simp [dropna]

lemma dropna_cons_none (l : List (Option ℚ)) :
    dropna (none :: l) = dropna l := by simp [dropna]

/-! ### Claim C4 -/

/-- Claim C4 counterexample: on the three closes `100, 98, 100.4` the source
classifier returns UP (its rolling mean uses `min_periods = max(2, 3//2) = 2`,
giving a positive slope ratio), while the claim's formula with
`minimum periods = half the window = 1` admits a rolling-mean value at index
0 and yields a negative slope ratio, leaving the blended value inside the
SIDEWAYS band.  The claim as stated is therefore false at this input. -/
theorem claim_C4_counterexample :
    detect_trend [some 100, some 98, some (502/5)] = "UP" ∧
    detect_trend_claimC4 [some 100, some 98, some (502/5)] = "SIDEWAYS" := by
  constructor
  · simp only [detect_trend, dropna_cons_some, dropna_nil]
    norm_num [rollingMean, listMean, slope_ratio, dropna_nil, dropna_cons_some,
      dropna_cons_none, List.range_succ, TREND_THRESHOLD]
  · simp only [detect_trend_claimC4, dropna_cons_some, dropna_nil]
    norm_num [rollingMean, listMean, slope_ratio, dropna_nil, dropna_cons_some,
      dropna_cons_none, List.range_succ, TREND_THRESHOLD]

/-- Claim C4 (amended): `detect_trend` returns SIDEWAYS for fewer than 2
non-NaN closes or a zero first close; otherwise, with
`blended = 0.6 * ((last - first)/first) + 0.4 * slope_ratio` of the rolling
mean (window = clamp(length, 3, 20), minimum periods = `max(2, window // 2)`
— not the claim's plain half window), it returns UP when
`blended > 0.002`, DOWN when `blended < -0.002`, else SIDEWAYS; the final
conjunct pins the threshold constant to 0.002. -/
theorem claim_C4_amended (closes : List (Option ℚ)) :
    ((dropna closes).length < 2 → detect_trend closes = "SIDEWAYS") ∧
    (2 ≤ (dropna closes).length → (dropna closes).headD 0 = 0 →
        detect_trend closes = "SIDEWAYS") ∧
    (2 ≤ (dropna closes).length → (dropna closes).headD 0 ≠ 0 →
      detect_trend closes =
        (if TREND_THRESHOLD <
            (6/10) * (((dropna closes).getLastD 0 - (dropna closes).headD 0) /
                (dropna closes).headD 0) +
              (4/10) * slope_ratio (dropna (rollingMean
                (max 3 (min 20 (dropna closes).length))
                (max 2 (max 3 (min 20 (dropna closes).length) / 2))
                (dropna closes)))
          then "UP"
          else if
            (6/10) * (((dropna closes).getLastD 0 - (dropna closes).headD 0) /
                (dropna closes).headD 0) +
              (4/10) * slope_ratio (dropna (rollingMean
                (max 3 (min 20 (dropna closes).length))
                (max 2 (max 3 (min 20 (dropna closes).length) / 2))
                (dropna closes))) < -TREND_THRESHOLD
          then "DOWN" else "SIDEWAYS")) ∧
    TREND_THRESHOLD = 1/500 := by
  refine ⟨?_, ?_, ?_, by norm_num [TREND_THRESHOLD]⟩
  · intro h
    simp only [detect_trend]
    rw [if_pos h]
  · intro h2 h0
    have h1 : ¬ (dropna closes).length < 2 := by omega
    simp only [detect_trend]
    rw [if_neg h1, if_pos h0]
  · intro h2 h0
    have h1 : ¬ (dropna closes).length < 2 := by omega
    simp only [detect_trend]
    rw [if_neg h1, if_neg h0]

/-- Witness for the amended claim C4: its classification clause evaluated at
the counterexample closes gives UP. -/
theorem claim_C4_amended_witness :
    detect_trend [some 100, some 98, some (502/5)] = "UP" := by
  have h := (claim_C4_amended [some 100, some 98, some (502/5)]).2.2.1
    (by simp [dropna_cons_some]) (by norm_num [dropna_cons_some])
  rw [h]
  norm_num [rollingMean, listMean, slope_ratio, dropna_nil, dropna_cons_some,
    dropna_cons_none, List.range_succ, TREND_THRESHOLD]

/-! ### Claim C7 -/

/-- Claim C7: in the position-interval algorithm, when an ATR value is
available the guardrail applied to the candidate lists before ranking keeps
exactly the candidates within `5 * ATR` of the last close (first conjunct,
as a membership characterization of `daily_guardrail`, the filter
`_compute_daily_reversals` applies to both candidate lists before calling
`_rank_levels`).  On the concrete 1d scenario — support candidates at 80 and
98, last close 100, ATR 1 — the candidate at 80 is discarded, the candidate
at 98 is retained, and the final support list of the full pipeline is
`[98]`. -/
theorem claim_C7_daily_guardrail :
    (∀ (a last_close : ℚ) (cands : List Cand) (c : Cand),
        c ∈ daily_guardrail (some a) last_close cands ↔
          c ∈ cands ∧ |c.1 - last_close| ≤ 5 * a) ∧
    daily_candidates
      [ ⟨0, 100, 101, 80, 100⟩, ⟨24, 100, 102, 99, 101⟩, ⟨48, 101, 103, 100, 102⟩,
        ⟨72, 102, 104, 101, 103⟩, ⟨96, 103, 104, 98, 102⟩, ⟨120, 102, 104, 101, 103⟩,
        ⟨144, 103, 105, 102, 104⟩, ⟨168, 104, 106, 103, 105⟩,
        ⟨192, 101, 106, 100, 100⟩ ] = ([(80, 0), (98, 96)], []) ∧
    daily_guardrail (some 1) 100 [(80, 0), (98, 96)] = [(98, 96)] ∧
    (compute_support_resistance
      [ ⟨0, 100, 101, 80, 100⟩, ⟨24, 100, 102, 99, 101⟩, ⟨48, 101, 103, 100, 102⟩,
        ⟨72, 102, 104, 101, 103⟩, ⟨96, 103, 104, 98, 102⟩, ⟨120, 102, 104, 101, 103⟩,
        ⟨144, 103, 105, 102, 104⟩, ⟨168, 104, 106, 103, 105⟩,
        ⟨192, 101, 106, 100, 100⟩ ] "1d" 2 (some 1)).1 = [98] := by
  have h1h : (strLower "1d" = "1h") = False := by decide
  have h4h : (strLower "1d" = "4h") = False := by decide
  have h1d : (strLower "1d" = "1d") = True := by decide
  refine ⟨?_, ?_, ?_, ?_⟩
  · intro a last_close cands c
    simp only [daily_guardrail, List.mem_filter, decide_eq_true_eq]
    rw [mul_comm]
  · norm_num [daily_candidates, tailRows, List.range_succ,
      DAILY_REVERSAL_CANDLES, List.filterMap_cons, List.forall_mem_cons]
  · norm_num [daily_guardrail, List.filter]
  · set_option maxHeartbeats 3000000 in
    norm_num [compute_support_resistance, compute_daily_reversals,
      daily_candidates, daily_guardrail, rank_levels, dedupRound4,
      applyPriceConstraints, fallback_extremes, tailRows, sortLevels,
      structureRel, roundTo, roundHalfEven, List.insertionSort,
      List.orderedInsert, List.range_succ, List.filter, h1h, h4h, h1d,
      DAILY_LOOKBACK_BARS, DAILY_REVERSAL_CANDLES]

/-! ### Claim C10 -/

lemma trueRangeList_length (df : List Bar) :
    (trueRangeList df).length = df.length := by
  cases df with
  | nil => rfl
  | cons b0 rest => simp [trueRangeList, List.length_zipWith]

lemma getLast?_range {n : ℕ} (hn : n ≠ 0) :
    (List.range n).getLast? = some (n - 1) := by
  obtain ⟨m, rfl⟩ := Nat.exists_eq_succ_of_ne_zero hn
  rw [List.range_succ]
  simp

lemma rollingMean_getLast? (w mp : ℕ) (xs : List ℚ) (hne : xs ≠ [])
    (hmp : mp ≤ min xs.length w) :
    (rollingMean w mp xs).getLast? =
      some (some (listMean ((xs.take xs.length).drop
        (xs.length - min xs.length w)))) := by
  have hn : xs.length ≠ 0 := by
    simpa [List.length_eq_zero] using hne
  unfold rollingMean
  rw [List.getLast?_map, getLast?_range hn]
  have h1 : xs.length - 1 + 1 = xs.length := Nat.succ_pred_eq_of_ne_zero hn
  simp only [Option.map_some']
  rw [h1, if_pos hmp]

lemma dropna_getLast? {l : List (Option ℚ)} {v : ℚ}
    (h : l.getLast? = some (some v)) : (dropna l).getLast? = some v := by
  unfold dropna
  rw [List.getLast?_eq_head?_reverse] at h ⊢
  rw [← List.filterMap_reverse]
  obtain ⟨t, ht⟩ : ∃ t, l.reverse = some v :: t := by
    cases hrev : l.reverse with
    | nil => rw [hrev] at h; simp at h
    | cons x t =>
        rw [hrev] at h
        simp at h
        exact ⟨t, by rw [h]⟩
  rw [ht]
  simp

/-- Claim C10: for a frame of at least 2 valid rows, the rolling-mean ATR
column (`window = period`, `min_periods = min(period, length)`) always holds
at least one valid value — its final entry is valid — so the plain-mean
fallback branch of `compute_atr` is unreachable, and `compute_atr` returns
the last rolling-mean value rounded to 4 digits. -/
theorem claim_C10_atr_fallback_unreachable (df : List Bar) (period : ℕ)
    (h2 : 2 ≤ df.length) :
    dropna (atrRollingSeries period df) ≠ [] ∧
    compute_atr df period =
      some (roundTo 4 ((dropna (atrRollingSeries period df)).getLastD 0)) := by
  have htrne : trueRangeList df ≠ [] := by
    have := trueRangeList_length df
    intro hcontra
    rw [hcontra] at this
    simp at this
    omega
  have hlast : (atrRollingSeries period df).getLast? =
      some (some (listMean (((trueRangeList df).take (trueRangeList df).length).drop
        ((trueRangeList df).length - min (trueRangeList df).length period)))) := by
    unfold atrRollingSeries
    exact rollingMean_getLast? period (min period (trueRangeList df).length)
      (trueRangeList df) htrne (by omega)
  have hdrop := dropna_getLast? hlast
  have hne : dropna (atrRollingSeries period df) ≠ [] := by
    intro hcontra
    rw [hcontra] at hdrop
    simp at hdrop
  refine ⟨hne, ?_⟩
  simp only [compute_atr]
  rw [if_neg (by omega)]
  rw [hdrop, List.getLastD_eq_getLast?, hdrop]
  simp

/-- Witness for claim C10 at a concrete two-bar frame. -/
theorem claim_C10_witness :
    dropna (atrRollingSeries 14 [⟨0, 1, 2, 1, 1⟩, ⟨1, 1, 3, 1, 2⟩]) ≠ [] ∧
    compute_atr [⟨0, 1, 2, 1, 1⟩, ⟨1, 1, 3, 1, 2⟩] 14 =
      some (roundTo 4 ((dropna (atrRollingSeries 14
        [⟨0, 1, 2, 1, 1⟩, ⟨1, 1, 3, 1, 2⟩])).getLastD 0)) :=
  claim_C10_atr_fallback_unreachable [⟨0, 1, 2, 1, 1⟩, ⟨1, 1, 3, 1, 2⟩] 14
    (by norm_num)

/-! ### Claim C6 -/

lemma zipWith_mem_of_forall₂ {α β γ : Type} {f : α → β → γ} {P1 : α → Prop}
    {P2 : β → Prop} {Q : γ → Prop} (hf : ∀ a b, P1 a → P2 b → Q (f a b)) :
    ∀ (l1 : List α) (l2 : List β), (∀ a ∈ l1, P1 a) → (∀ b ∈ l2, P2 b) →
      ∀ y ∈ List.zipWith f l1 l2, Q y := by
  intro l1
  induction l1 with
  | nil => intro l2 _ _ y hy; simp at hy
  | cons a t ih =>
      intro l2 h1 h2 y hy
      cases l2 with
      | nil => simp at hy
      | cons b t2 =>
          rw [List.zipWith_cons_cons] at hy
          rcases List.mem_cons.mp hy with h | h
          · subst h
            exact hf a b (h1 a (by simp)) (h2 b (by simp))
          · exact ih t2 (fun x hx => h1 x (by simp [hx]))
              (fun x hx => h2 x (by simp [hx])) y h

lemma rsi_value_bound {g l : ℚ} (hg : 0 ≤ g) (hl : 0 < l) :
    0 ≤ 100 - 100 / (1 + g / l) ∧ 100 - 100 / (1 + g / l) < 100 := by
  have hgl : 0 ≤ g / l := div_nonneg hg hl.le
  constructor
  · have h1 : 100 / (1 + g / l) ≤ 100 := by
      rw [div_le_iff₀ (by linarith)]
      nlinarith
    linarith
  · have h2 : 0 < 100 / (1 + g / l) := by positivity
    linarith

lemma ewmWilder_go_nonneg {alpha : ℚ} {mp : ℕ} (ha0 : 0 ≤ alpha)
    (ha1 : alpha ≤ 1) :
    ∀ (l : List (Option ℚ)) (state : Option ℚ) (cnt : ℕ),
      (∀ y, state = some y → 0 ≤ y) →
      (∀ o ∈ l, ∀ x, o = some x → 0 ≤ x) →
      ∀ o ∈ ewmWilder.go alpha mp state cnt l, ∀ v, o = some v → 0 ≤ v := by
  intro l
  induction l with
  | nil => intro state cnt _ _ o ho; simp [ewmWilder.go] at ho
  | cons head t ih =>
      intro state cnt hs hl o ho
      cases head with
      | none =>
          simp only [ewmWilder.go] at ho
          rcases List.mem_cons.mp ho with h | h
          · subst h
            intro v hv
            split_ifs at hv
            exact hs v hv
          · exact ih state cnt hs (fun x hx => hl x (by simp [hx])) o h
      | some x =>
          have hx : 0 ≤ x := hl (some x) (by simp) x rfl
          have hm : 0 ≤ (match state with
              | none => x
              | some m0 => (1 - alpha) * m0 + alpha * x) := by
            cases state with
            | none => exact hx
            | some m0 =>
                have h0 : 0 ≤ m0 := hs m0 rfl
                have h1 : 0 ≤ (1 - alpha) * m0 :=
                  mul_nonneg (by linarith) h0
                have h2 : 0 ≤ alpha * x := mul_nonneg ha0 hx
                simpa using add_nonneg h1 h2
          simp only [ewmWilder.go] at ho
          rcases List.mem_cons.mp ho with h | h
          · subst h
            intro v hv
            split_ifs at hv
            simp only [Option.some.injEq] at hv
            subst hv
            exact hm
          · refine ih _ (cnt + 1) ?_ (fun y hy => hl y (by simp [hy])) o h
            intro y hy
            simp only [Option.some.injEq] at hy
            subst hy
            exact hm

lemma div_nat_le_one (p : ℕ) : (1 : ℚ) / (p : ℚ) ≤ 1 := by
  cases p with
  | zero => norm_num
  | succ n =>
      rw [div_le_one (by positivity)]
      exact_mod_cast Nat.one_le_iff_ne_zero.mpr (Nat.succ_ne_zero n)

lemma avgGainSeries_nonneg (period : ℕ) (cl : List ℚ) :
    ∀ o ∈ avgGainSeries period cl, ∀ v, o = some v → 0 ≤ v := by
  unfold avgGainSeries ewmWilder
  apply ewmWilder_go_nonneg (by positivity) (div_nat_le_one period)
  · intro y hy; simp at hy
  · intro o ho x hx
    rcases List.mem_cons.mp ho with h | h
    · rw [h] at hx; simp at hx
    · rcases List.mem_map.mp h with ⟨d, _, hd⟩
      rw [← hd] at hx
      simp only [Option.some.injEq] at hx
      subst hx
      exact le_max_right d 0

lemma avgLossSeries_nonneg (period : ℕ) (cl : List ℚ) :
    ∀ o ∈ avgLossSeries period cl, ∀ v, o = some v → 0 ≤ v := by
  unfold avgLossSeries ewmWilder
  apply ewmWilder_go_nonneg (by positivity) (div_nat_le_one period)
  · intro y hy; simp at hy
  · intro o ho x hx
    rcases List.mem_cons.mp ho with h | h
    · rw [h] at hx; simp at hx
    · rcases List.mem_map.mp h with ⟨d, _, hd⟩
      rw [← hd] at hx
      simp only [Option.some.injEq] at hx
      subst hx
      exact le_max_right (-d) 0

lemma rsiSeries_mem_bound (period : ℕ) (cl : List ℚ) :
    ∀ o ∈ rsiSeries period cl, ∀ v, o = some v → 0 ≤ v ∧ v < 100 := by
  unfold rsiSeries
  apply @zipWith_mem_of_forall₂ (Option ℚ) (Option ℚ) (Option ℚ) _
    (fun o => ∀ v, o = some v → 0 ≤ v)
    (fun o => ∀ v, o = some v → 0 ≤ v)
    (fun o => ∀ v, o = some v → 0 ≤ v ∧ v < 100)
  · intro a b h1 h2
    cases a with
    | none => intro v hv; simp at hv
    | some g =>
        cases b with
        | none => intro v hv; simp at hv
        | some l =>
            intro v hv
            dsimp only at hv
            split_ifs at hv with hl0
            simp only [Option.some.injEq] at hv
            subst hv
            have hg : 0 ≤ g := h1 g rfl
            have hl : 0 ≤ l := h2 l rfl
            exact rsi_value_bound hg (lt_of_le_of_ne hl (Ne.symm hl0))
  · exact avgGainSeries_nonneg period cl
  · exact avgLossSeries_nonneg period cl

lemma getLastD_dropna_nonneg {series : List (Option ℚ)}
    (h : ∀ o ∈ series, ∀ v, o = some v → 0 ≤ v) :
    0 ≤ ((dropna series).getLast?).getD 0 := by
  cases hl : (dropna series).getLast? with
  | none => simp
  | some y =>
      have hy : y ∈ dropna series := List.mem_of_mem_getLast? hl
      simpa using h _ (dropna_mem hy) y rfl

lemma trueRangeList_nonneg (df : List Bar) : ∀ y ∈ trueRangeList df, 0 ≤ y := by
  cases df with
  | nil => intro y hy; simp [trueRangeList] at hy
  | cons b0 rest =>
      intro y hy
      simp only [trueRangeList] at hy
      rcases List.mem_cons.mp hy with h | h
      · subst h; exact abs_nonneg _
      · refine @zipWith_mem_of_forall₂ Bar Bar ℚ _ (fun _ => True) (fun _ => True)
          (fun q => 0 ≤ q) ?_ _ _ (by simp) (by simp) y h
        intro a b _ _
        exact le_trans (abs_nonneg _) (le_max_left _ _)

lemma rollingMean_mem_nonneg {w mp : ℕ} {xs : List ℚ} (h : ∀ y ∈ xs, 0 ≤ y) :
    ∀ o ∈ rollingMean w mp xs, ∀ v, o = some v → 0 ≤ v := by
  intro o ho v hv
  unfold rollingMean at ho
  rcases List.mem_map.mp ho with ⟨i, _, hfi⟩
  rw [← hfi] at hv
  dsimp only at hv
  split_ifs at hv
  simp only [Option.some.injEq] at hv
  subst hv
  apply listMean_nonneg
  intro y hy
  exact h y (List.mem_of_mem_take (List.mem_of_mem_drop hy))

lemma compute_rsi_in_range (closes : List (Option ℚ)) (period : ℕ) :
    ∀ x, compute_rsi closes period = some x → 0 ≤ x ∧ x ≤ 100 := by
  intro x hx
  simp only [compute_rsi] at hx
  by_cases hlen : (dropna closes).length < 2
  · rw [if_pos hlen] at hx; exact absurd hx (by simp)
  · rw [if_neg hlen] at hx
    split at hx
    · rename_i v heq
      simp only [Option.some.injEq] at hx
      subst hx
      have hv := rsiSeries_mem_bound period (dropna closes) _
        (dropna_mem (List.mem_of_mem_getLast? heq)) v rfl
      refine ⟨roundTo_nonneg 2 hv.1, ?_⟩
      have h100 : roundTo 2 v ≤ ((100 : ℤ) : ℚ) :=
        roundTo_le_int 2 (by push_cast; linarith [hv.2])
      simpa using h100
    · have hg : 0 ≤ ((dropna (avgGainSeries period (dropna closes))).getLast?).getD 0 :=
        getLastD_dropna_nonneg (avgGainSeries_nonneg period (dropna closes))
      have hl : 0 ≤ ((dropna (avgLossSeries period (dropna closes))).getLast?).getD 0 :=
        getLastD_dropna_nonneg (avgLossSeries_nonneg period (dropna closes))
      split_ifs at hx with h1 h2 h3 h4 <;>
        simp only [Option.some.injEq] at hx
      · exact ⟨by linarith [hx.symm.le], by linarith [hx.symm.le]⟩
      · exact ⟨by linarith [hx.symm.le], by linarith [hx.symm.le]⟩
      · exact ⟨by linarith [hx.symm.le], by linarith [hx.symm.le]⟩
      · subst hx
        have hb := rsi_value_bound h4.1.le h4.2
        refine ⟨roundTo_nonneg 2 hb.1, ?_⟩
        have hxle : (100 : ℚ) - 100 /
            (1 + (dropna (avgGainSeries period (dropna closes))).getLast?.getD 0 /
              (dropna (avgLossSeries period (dropna closes))).getLast?.getD 0) ≤
            ((100 : ℤ) : ℚ) := by
          push_cast
          linarith [hb.2]
        have h100 := roundTo_le_int 2 hxle
        simpa using h100

lemma compute_atr_nonneg (df : List Bar) (period : ℕ) :
    ∀ x, compute_atr df period = some x → 0 ≤ x := by
  intro x hx
  simp only [compute_atr] at hx
  by_cases h2 : df.length < 2
  · rw [if_pos h2] at hx; exact absurd hx (by simp)
  · rw [if_neg h2] at hx
    split at hx
    · exact absurd hx (by simp)
    · rename_i m heq
      simp only [Option.some.injEq] at hx
      subst hx
      apply roundTo_nonneg
      split at heq
      · rename_i w hw
        simp only [Option.some.injEq] at heq
        subst heq
        have hmem : some w ∈ atrRollingSeries period df :=
          dropna_mem (List.mem_of_mem_getLast? hw)
        unfold atrRollingSeries at hmem
        exact rollingMean_mem_nonneg (trueRangeList_nonneg df) _ hmem w rfl
      · split_ifs at heq
        simp only [Option.some.injEq] at heq
        subst heq
        exact listMean_nonneg (trueRangeList_nonneg df)

lemma sampleStdModel_nonneg (l : List ℚ) :
    ∀ v, sampleStdModel l = some v → 0 ≤ v := by
  intro v hv
  unfold sampleStdModel at hv
  split_ifs at hv with hlen
  simp only [Option.some.injEq] at hv
  subst hv
  apply div_nonneg
  · apply List.sum_nonneg
    intro y hy
    rcases List.mem_map.mp hy with ⟨a, _, ha⟩
    rw [← ha]
    positivity
  · have hge : (2 : ℚ) ≤ (l.length : ℚ) := by exact_mod_cast (not_lt.mp hlen)
    linarith

lemma compute_average_volatility_nonneg (df : List Bar)
    (hb : ∀ b ∈ df, b.low ≤ b.high) :
    ∀ x, compute_average_volatility df = some x → 0 ≤ x := by
  intro x hx
  simp only [compute_average_volatility] at hx
  by_cases hemp : (df.map (fun b => b.high - b.low)).isEmpty
  · rw [if_pos hemp] at hx
    have hx2 : (match sampleStdModel (pctChange (df.map (fun b => b.close))) with
        | some v => some (roundTo 4 v)
        | none => none) = some x := hx
    split at hx2
    · rename_i w hw
      simp only [Option.some.injEq] at hx2
      subst hx2
      exact roundTo_nonneg 4 (sampleStdModel_nonneg _ w hw)
    · exact absurd hx2 (by simp)
  · rw [if_neg hemp] at hx
    have hx2 : some (roundTo 4 (listMean (df.map (fun b => b.high - b.low))))
        = some x := hx
    simp only [Option.some.injEq] at hx2
    subst hx2
    apply roundTo_nonneg
    apply listMean_nonneg
    intro y hy
    rcases List.mem_map.mp hy with ⟨b, hbmem, hbeq⟩
    rw [← hbeq]
    have := hb b hbmem
    linarith

/-- Claim C6: for every series whose bars have `high ≥ low`, whenever
`compute_rsi` returns a value it lies in `[0, 100]`, whenever `compute_atr`
returns a value it is non-negative, and whenever
`compute_average_volatility` returns a value it is non-negative. -/
theorem claim_C6_indicator_bounds (df : List Bar) (period : ℕ)
    (hb : ∀ b ∈ df, b.low ≤ b.high) :
    (∀ x, compute_rsi (df.map (fun b => some b.close)) period = some x →
        0 ≤ x ∧ x ≤ 100) ∧
    (∀ x, compute_atr df period = some x → 0 ≤ x) ∧
    (∀ x, compute_average_volatility df = some x → 0 ≤ x) :=
  ⟨compute_rsi_in_range (df.map (fun b => some b.close)) period,
   compute_atr_nonneg df period,
   compute_average_volatility_nonneg df hb⟩

/-- Witness for claim C6 at a concrete two-bar frame: its ATR is `3/2`
and the theorem yields `0 ≤ 3/2`. -/
theorem claim_C6_witness :
    compute_atr [⟨0, 1, 2, 1, 1⟩, ⟨1, 1, 3, 1, 2⟩] 14 = some (3/2) ∧
    (0 : ℚ) ≤ 3/2 := by
  have heval : compute_atr [⟨0, 1, 2, 1, 1⟩, ⟨1, 1, 3, 1, 2⟩] 14 = some (3/2) := by
    norm_num [compute_atr, atrRollingSeries, trueRangeList, rollingMean,
      listMean, dropna, roundTo, roundHalfEven, List.range_succ]
  exact ⟨heval,
    (claim_C6_indicator_bounds [⟨0, 1, 2, 1, 1⟩, ⟨1, 1, 3, 1, 2⟩] 14
      (by norm_num)).2.1 (3/2) heval⟩

/-! ### Claim C5 -/

/-- Claim C5: `compute_rsi` never raises; with fewer than 2 non-NaN closes
it returns `none`; and whenever the Wilder-smoothed RSI column holds no
valid value, it resolves the result from the latest smoothed gain/loss pair
in the claim's exact priority order (`rsi_edge_resolution`): gain without
loss is 100, loss without gain is 0, both zero is 50, both positive computes
the RSI from that single pair, anything else is absent. -/
theorem claim_C5_rsi_edge_cases (closes : List (Option ℚ)) (period : ℕ) :
    ((dropna closes).length < 2 → compute_rsi closes period = none) ∧
    (2 ≤ (dropna closes).length →
      dropna (rsiSeries period (dropna closes)) = [] →
      compute_rsi closes period =
        rsi_edge_resolution (latest_smoothed_gain period (dropna closes))
          (latest_smoothed_loss period (dropna closes))) := by
  constructor
  · intro h
    simp only [compute_rsi]
    rw [if_pos h]
  · intro h2 hempty
    have h1 : ¬ (dropna closes).length < 2 := by omega
    simp only [compute_rsi]
    rw [if_neg h1, hempty]
    simp only [rsi_edge_resolution, latest_smoothed_gain, latest_smoothed_loss,
      List.getLast?_nil]

/-- Witness for claim C5: two rising closes leave the smoothed column with
no valid value (fewer than `period` observations), the latest smoothed pair
defaults to `(0, 0)`, and the RSI resolves to 50. -/
theorem claim_C5_witness :
    compute_rsi [some 1, some 2] 14 = some 50 := by
  have h := (claim_C5_rsi_edge_cases [some 1, some 2] 14).2
    (by simp [dropna_cons_some]) (by decide)
  rw [h]
  decide

/-! ### Claim C8 -/

lemma reactionLoop_eq (psup pres : ℕ → Bool) :
    ∀ (k : ℕ) (s1 s2 : Option ℕ),
      reactionLoop psup pres (s1, s2) k =
        (oget s1 (findTop psup k), oget s2 (findTop pres k)) := by
  intro k
  induction k with
  | zero =>
      intro s1 s2
      cases s1 <;> cases s2 <;>
        by_cases h1 : psup 0 <;> by_cases h2 : pres 0 <;>
          simp [reactionLoop, reactionStep, findTop, oget, h1, h2]
  | succ k ih =>
      intro s1 s2
      cases s1 <;> cases s2 <;>
        by_cases h1 : psup (k + 1) <;> by_cases h2 : pres (k + 1) <;>
          simp [reactionLoop, reactionStep, findTop, oget, h1, h2, ih]

lemma findTop_eq_none (P : ℕ → Bool) :
    ∀ k, (∀ j, j ≤ k → P j = false) → findTop P k = none := by
  intro k
  induction k with
  | zero => intro h; simp [findTop, h 0 (le_refl 0)]
  | succ k ih =>
      intro h
      simp only [findTop, h (k + 1) (le_refl _)]
      simpa using ih (fun j hj => h j (by omega))

lemma findTop_eq_some (P : ℕ → Bool) :
    ∀ k s, P s = true → s ≤ k → (∀ j, j ≤ k → P j = true → j ≤ s) →
      findTop P k = some s := by
  intro k
  induction k with
  | zero =>
      intro s hs hsk _
      have : s = 0 := by omega
      subst this
      simp [findTop, hs]
  | succ k ih =>
      intro s hs hsk hmax
      by_cases hk : P (k + 1) = true
      · have hks : k + 1 ≤ s := hmax (k + 1) (le_refl _) hk
        have hseq : s = k + 1 := by omega
        subst hseq
        simp [findTop, hk]
      · have hne : s ≠ k + 1 := by
          intro hcontra
          subst hcontra
          exact hk hs
        simp only [findTop, hk, if_false]
        exact ih s hs (by omega) (fun j hj hPj => hmax j (by omega) hPj)

/-- Claim C8: the EMA reaction scan, whenever both a support-bounce event
and a resistance-reject event occur inside the window, reports the one with
fewer bars ago, reporting the support bounce on a tie (the most recent
support event at index `s` against the most recent resistance event at index
`r`); when no event of either kind occurs, it reports "none" with no
bars-ago value. -/
theorem claim_C8_ema_reaction_tiebreak (df : List Bar)
    (ema_series : List (Option ℚ)) (w n : ℕ)
    (lows closes highs : List ℚ) (ema_window : List (Option ℚ))
    (hwin : tailRows w df ≠ [])
    (hema : ema_window = tailRows (tailRows w df).length ema_series)
    (hemane : ema_window ≠ [])
    (hcl : closes = (tailRows w df).map (fun b => b.close))
    (hlo : lows = (tailRows w df).map (fun b => b.low))
    (hhi : highs = (tailRows w df).map (fun b => b.high))
    (hn : n = (tailRows w df).length) :
    (∀ s r : ℕ,
      s < n → supportEvent lows closes ema_window s = true →
      (∀ j, j < n → supportEvent lows closes ema_window j = true → j ≤ s) →
      r < n → resistanceEvent highs closes ema_window r = true →
      (∀ j, j < n → resistanceEvent highs closes ema_window j = true → j ≤ r) →
      detect_single_ema_reaction df ema_series w =
        (if n - 1 - s ≤ n - 1 - r then ("support_bounce", some (n - 1 - s))
         else ("resistance_reject", some (n - 1 - r)))) ∧
    ((∀ j, j < n → supportEvent lows closes ema_window j = false) →
     (∀ j, j < n → resistanceEvent highs closes ema_window j = false) →
     detect_single_ema_reaction df ema_series w = ("none", none)) := by
  have hn1 : 1 ≤ n := by
    rw [hn]
    have := List.length_pos.mpr hwin
    omega
  have hcond : ((tailRows w df).isEmpty ||
      (tailRows (tailRows w df).length ema_series).isEmpty) = false := by
    rw [← hema]
    simp [List.isEmpty_iff, hwin, hemane]
  constructor
  · intro s r hs hsev hsmax hr hrev hrmax
    simp only [detect_single_ema_reaction, hcond, Bool.false_eq_true, if_false]
    rw [← hema, ← hcl, ← hlo, ← hhi, ← hn]
    rw [reactionLoop_eq]
    rw [findTop_eq_some (supportEvent lows closes ema_window) (n - 1) s hsev
        (by omega) (fun j hj hPj => hsmax j (by omega) hPj),
      findTop_eq_some (resistanceEvent highs closes ema_window) (n - 1) r hrev
        (by omega) (fun j hj hPj => hrmax j (by omega) hPj)]
    rfl
  · intro hsnone hrnone
    simp only [detect_single_ema_reaction, hcond, Bool.false_eq_true, if_false]
    rw [← hema, ← hcl, ← hlo, ← hhi, ← hn]
    rw [reactionLoop_eq]
    rw [findTop_eq_none (supportEvent lows closes ema_window) (n - 1)
        (fun j hj => hsnone j (by omega)),
      findTop_eq_none (resistanceEvent highs closes ema_window) (n - 1)
        (fun j hj => hrnone j (by omega))]
    rfl

/-- Witness for claim C8: a six-bar window with a resistance rejection at the
oldest bar and a support bounce at the newest bar reports the support bounce
with zero bars ago. -/
theorem claim_C8_witness :
    detect_single_ema_reaction
      [ ⟨0, 0, 11, 5, 5⟩, ⟨1, 0, 4, 4, 4⟩, ⟨2, 0, 4, 4, 4⟩,
        ⟨3, 0, 5, 5, 5⟩, ⟨4, 0, 5, 5, 5⟩, ⟨5, 0, 11, 9, 11⟩ ]
      [some 10, some 10, some 10, some 10, some 10, some 10] 6
      = ("support_bounce", some 0) := by
  have h := (claim_C8_ema_reaction_tiebreak
    [ ⟨0, 0, 11, 5, 5⟩, ⟨1, 0, 4, 4, 4⟩, ⟨2, 0, 4, 4, 4⟩,
      ⟨3, 0, 5, 5, 5⟩, ⟨4, 0, 5, 5, 5⟩, ⟨5, 0, 11, 9, 11⟩ ]
    [some 10, some 10, some 10, some 10, some 10, some 10] 6 6
    [5, 4, 4, 5, 5, 9] [5, 4, 4, 5, 5, 11] [11, 4, 4, 5, 5, 11]
    [some 10, some 10, some 10, some 10, some 10, some 10]
    (by decide) (by decide) (by decide) (by decide) (by decide) (by decide)
    (by decide)).1 5 0
    (by decide) (by decide) (by decide) (by decide) (by decide) (by decide)
  rw [h]
  decide

/-! ### Claim C1 -/

lemma dedupRound4_covers :
    ∀ (cands : List Cand) (seen : List ℚ) (c : Cand), c ∈ cands →
      roundTo 4 c.1 ∈ seen ∨
        ∃ e ∈ dedupRound4 seen cands, e.1 = roundTo 4 c.1 := by
  intro cands
  induction cands with
  | nil => intro seen c hc; simp at hc
  | cons d rest ih =>
      intro seen c hc
      by_cases hkey : roundTo 4 d.1 ∈ seen
      · rw [show dedupRound4 seen (d :: rest) = dedupRound4 seen rest by
          simp [dedupRound4, hkey]]
        rcases List.mem_cons.mp hc with hcd | hcrest
        · subst hcd; exact Or.inl hkey
        · exact ih seen c hcrest
      · rw [show dedupRound4 seen (d :: rest)
            = (roundTo 4 d.1, d.2) :: dedupRound4 (roundTo 4 d.1 :: seen) rest by
          simp [dedupRound4, hkey]]
        rcases List.mem_cons.mp hc with hcd | hcrest
        · subst hcd
          exact Or.inr ⟨(roundTo 4 c.1, c.2), by simp⟩
        · rcases ih (roundTo 4 d.1 :: seen) c hcrest with hseen | ⟨e, he, heq⟩
          · rcases List.mem_cons.mp hseen with h1 | h2
            · exact Or.inr ⟨(roundTo 4 d.1, d.2), by simp, by simp [h1]⟩
            · exact Or.inl h2
          · exact Or.inr ⟨e, by simp [he], heq⟩

lemma take_ne_nil {α : Type} {l : List α} {n : ℕ} (hl : l ≠ []) (hn : 1 ≤ n) :
    l.take n ≠ [] := by
  cases l with
  | nil => exact absurd rfl hl
  | cons x t =>
      cases n with
      | zero => omega
      | succ m => simp

lemma insertionSort_ne_nil {α : Type} (r : α → α → Prop) [DecidableRel r]
    {l : List α} (hl : l ≠ []) : List.insertionSort r l ≠ [] := by
  intro hcontra
  have hp := List.perm_insertionSort r l
  rw [hcontra] at hp
  exact hl (List.Perm.eq_nil hp.symm)

lemma rank_levels_max_price (cands : List Cand) (lc : ℚ) (n : ℕ) (sd : Bool)
    (mode : String) (m : ℚ) (hn : 1 ≤ n)
    (h : ∃ c ∈ cands, roundTo 4 c.1 ≤ m) :
    rank_levels cands lc n sd mode none (some m) ≠ [] ∧
    ∀ x ∈ rank_levels cands lc n sd mode none (some m), x ≤ m := by
  obtain ⟨c, hc, hcle⟩ := h
  have hcne : cands ≠ [] := by intro hcontra; rw [hcontra] at hc; simp at hc
  rcases dedupRound4_covers cands [] c hc with hseen | ⟨e, he, heq⟩
  · simp at hseen
  · have hef : e ∈ applyPriceConstraints none (some m) (dedupRound4 [] cands) := by
      simp only [applyPriceConstraints]
      exact List.mem_filter.mpr ⟨he, by simp [heq, hcle]⟩
    have hf2ne : applyPriceConstraints none (some m) (dedupRound4 [] cands) ≠ [] := by
      intro hcontra; rw [hcontra] at hef; simp at hef
    have hfmem : ∀ x ∈ applyPriceConstraints none (some m) (dedupRound4 [] cands),
        x.1 ≤ m := by
      intro x hx
      simp only [applyPriceConstraints] at hx
      have := (List.mem_filter.mp hx).2
      simpa using this
    have hb : ((applyPriceConstraints none (some m) (dedupRound4 [] cands)).isEmpty &&
        !(dedupRound4 [] cands).isEmpty) = false := by
      have h1 : (applyPriceConstraints none (some m) (dedupRound4 [] cands)).isEmpty
          = false := by
        simpa [List.isEmpty_iff] using hf2ne
      simp [h1]
    simp only [rank_levels]
    rw [if_neg (by simpa [List.isEmpty_iff] using hcne)]
    simp only [hb, Bool.false_eq_true, if_false]
    constructor
    · split
      all_goals
        apply insertionSort_ne_nil
        simp only [ne_eq, List.map_eq_nil_iff]
        split
      all_goals
        exact take_ne_nil (insertionSort_ne_nil _ hf2ne) hn
    · intro x hx
      split at hx
      all_goals
        rw [mem_insertionSort] at hx
        rcases List.mem_map.mp hx with ⟨cc, hcc, rfl⟩
        have hmm := List.mem_of_mem_take hcc
        split at hmm
      all_goals
        rw [mem_insertionSort] at hmm
        exact hfmem cc hmm

lemma rank_levels_min_price (cands : List Cand) (lc : ℚ) (n : ℕ) (sd : Bool)
    (mode : String) (m : ℚ) (hn : 1 ≤ n)
    (h : ∃ c ∈ cands, m ≤ roundTo 4 c.1) :
    rank_levels cands lc n sd mode (some m) none ≠ [] ∧
    ∀ x ∈ rank_levels cands lc n sd mode (some m) none, m ≤ x := by
  obtain ⟨c, hc, hcle⟩ := h
  have hcne : cands ≠ [] := by intro hcontra; rw [hcontra] at hc; simp at hc
  rcases dedupRound4_covers cands [] c hc with hseen | ⟨e, he, heq⟩
  · simp at hseen
  · have hef : e ∈ applyPriceConstraints (some m) none (dedupRound4 [] cands) := by
      simp only [applyPriceConstraints]
      exact List.mem_filter.mpr ⟨he, by simp [heq, hcle]⟩
    have hf2ne : applyPriceConstraints (some m) none (dedupRound4 [] cands) ≠ [] := by
      intro hcontra; rw [hcontra] at hef; simp at hef
    have hfmem : ∀ x ∈ applyPriceConstraints (some m) none (dedupRound4 [] cands),
        m ≤ x.1 := by
      intro x hx
      simp only [applyPriceConstraints] at hx
      have := (List.mem_filter.mp hx).2
      simpa using this
    have hb : ((applyPriceConstraints (some m) none (dedupRound4 [] cands)).isEmpty &&
        !(dedupRound4 [] cands).isEmpty) = false := by
      have h1 : (applyPriceConstraints (some m) none (dedupRound4 [] cands)).isEmpty
          = false := by
        simpa [List.isEmpty_iff] using hf2ne
      simp [h1]
    simp only [rank_levels]
    rw [if_neg (by simpa [List.isEmpty_iff] using hcne)]
    simp only [hb, Bool.false_eq_true, if_false]
    constructor
    · split
      all_goals
        apply insertionSort_ne_nil
        simp only [ne_eq, List.map_eq_nil_iff]
        split
      all_goals
        exact take_ne_nil (insertionSort_ne_nil _ hf2ne) hn
    · intro x hx
      split at hx
      all_goals
        rw [mem_insertionSort] at hx
        rcases List.mem_map.mp hx with ⟨cc, hcc, rfl⟩
        have hmm := List.mem_of_mem_take hcc
        split at hmm
      all_goals
        rw [mem_insertionSort] at hmm
        exact hfmem cc hmm

lemma sortLevels_mem (is_support : Bool) {x : ℚ} {l : List ℚ} :
    x ∈ sortLevels is_support l ↔ x ∈ l := by
  cases is_support <;> simp [sortLevels, mem_insertionSort]

lemma sortLevels_ne_nil (is_support : Bool) {l : List ℚ} (hl : l ≠ []) :
    sortLevels is_support l ≠ [] := by
  cases is_support <;> exact insertionSort_ne_nil _ hl

lemma fill_levels_step_bound {P : ℚ → Prop} (maxl : ℕ) (minP maxP : Option ℚ)
    (tol : ℚ)
    (hkeep : ∀ p : ℚ,
      (match minP with | some mm => decide (p < mm) | none => false) = false →
      (match maxP with | some mm => decide (mm < p) | none => false) = false →
      P p) :
    ∀ (cands : List Cand) (levels : List ℚ), (∀ x ∈ levels, P x) →
      ∀ x ∈ cands.foldl (fun levels c =>
          if maxl ≤ levels.length then levels
          else if (match minP with
                  | some mm => decide (c.1 < mm)
                  | none => false) then levels
          else if (match maxP with
                  | some mm => decide (mm < c.1)
                  | none => false) then levels
          else if levels.all (fun e => decide (tol ≤ |c.1 - e|)) then
            levels ++ [c.1]
          else levels) levels, P x := by
  intro cands
  induction cands with
  | nil => intro levels hl x hx; exact hl x hx
  | cons c rest ih =>
      intro levels hl x hx
      simp only [List.foldl_cons] at hx
      refine ih _ ?_ x hx
      split_ifs with h1 h2 h3 h4
      · exact hl
      · exact hl
      · exact hl
      · intro y hy
        rcases List.mem_append.mp hy with hy1 | hy2
        · exact hl y hy1
        · have : y = c.1 := by simpa using hy2
          subst this
          exact hkeep c.1 (by simpa using h2) (by simpa using h3)
      · exact hl

lemma fill_levels_step_ne_nil (maxl : ℕ) (minP maxP : Option ℚ) (tol : ℚ) :
    ∀ (cands : List Cand) (levels : List ℚ), levels ≠ [] →
      cands.foldl (fun levels c =>
          if maxl ≤ levels.length then levels
          else if (match minP with
                  | some mm => decide (c.1 < mm)
                  | none => false) then levels
          else if (match maxP with
                  | some mm => decide (mm < c.1)
                  | none => false) then levels
          else if levels.all (fun e => decide (tol ≤ |c.1 - e|)) then
            levels ++ [c.1]
          else levels) levels ≠ [] := by
  intro cands
  induction cands with
  | nil => intro levels hl; exact hl
  | cons c rest ih =>
      intro levels hl
      simp only [List.foldl_cons]
      apply ih
      split_ifs <;> simp_all

lemma fill_levels_bound {P : ℚ → Prop} (cur : List ℚ) (cands : List Cand)
    (tol : ℚ) (maxl : ℕ) (is_support : Bool) (minP maxP : Option ℚ)
    (hkeep : ∀ p : ℚ,
      (match minP with | some mm => decide (p < mm) | none => false) = false →
      (match maxP with | some mm => decide (mm < p) | none => false) = false →
      P p)
    (hcur : ∀ x ∈ cur, P x) :
    ∀ x ∈ fill_levels_from_candidates cur cands tol maxl is_support minP maxP,
      P x := by
  intro x hx
  simp only [fill_levels_from_candidates] at hx
  split_ifs at hx
  · exact hcur x ((sortLevels_mem is_support).mp hx)
  · rw [sortLevels_mem] at hx
    exact fill_levels_step_bound maxl minP maxP tol hkeep _ cur hcur x hx

lemma fill_levels_ne_nil (cur : List ℚ) (cands : List Cand) (tol : ℚ)
    (maxl : ℕ) (is_support : Bool) (minP maxP : Option ℚ) (hcur : cur ≠ []) :
    fill_levels_from_candidates cur cands tol maxl is_support minP maxP ≠ [] := by
  simp only [fill_levels_from_candidates]
  split_ifs
  · exact sortLevels_ne_nil is_support hcur
  · exact sortLevels_ne_nil is_support
      (fill_levels_step_ne_nil maxl minP maxP tol _ cur hcur)

lemma listMaxD_le {l : List ℚ} {m d : ℚ} (hd : d ≤ m) (h : ∀ x ∈ l, x ≤ m) :
    listMaxD l d ≤ m := by
  cases l with
  | nil => exact hd
  | cons x t =>
      simp only [listMaxD]
      have hgen : ∀ (t : List ℚ) (acc : ℚ), acc ≤ m → (∀ y ∈ t, y ≤ m) →
          t.foldl max acc ≤ m := by
        intro t
        induction t with
        | nil => intro acc ha _; exact ha
        | cons y ys ih =>
            intro acc ha hy
            simp only [List.foldl_cons]
            exact ih (max acc y) (max_le ha (hy y (by simp)))
              (fun z hz => hy z (by simp [hz]))
      exact hgen t x (h x (by simp)) (fun z hz => h z (by simp [hz]))

lemma listMaxD_le_of_ne_nil {l : List ℚ} {m : ℚ} (d : ℚ) (hne : l ≠ [])
    (h : ∀ x ∈ l, x ≤ m) : listMaxD l d ≤ m := by
  cases l with
  | nil => exact absurd rfl hne
  | cons x t =>
      simp only [listMaxD]
      have hgen : ∀ (t : List ℚ) (acc : ℚ), acc ≤ m → (∀ y ∈ t, y ≤ m) →
          t.foldl max acc ≤ m := by
        intro t
        induction t with
        | nil => intro acc ha _; exact ha
        | cons y ys ih =>
            intro acc ha hy
            simp only [List.foldl_cons]
            exact ih (max acc y) (max_le ha (hy y (by simp)))
              (fun z hz => hy z (by simp [hz]))
      exact hgen t x (h x (by simp)) (fun z hz => h z (by simp [hz]))

lemma compute_intraday_ok (dfs : List Bar) (levels : ℕ) (lc : ℚ)
    (atr : Option ℚ) (hlev : 1 ≤ levels)
    (h1 : ∃ c ∈ merge_candidates_by_atr
        (intraday_candidates (tailRows INTRADAY_LOOKBACK_BARS dfs)).1
        (atr.getD 0) true, roundTo 4 c.1 ≤ lc)
    (h2 : ∃ c ∈ merge_candidates_by_atr
        (intraday_candidates (tailRows INTRADAY_LOOKBACK_BARS dfs)).2
        (atr.getD 0) false, lc ≤ roundTo 4 c.1) :
    (compute_intraday_reversals dfs levels lc atr).1 ≠ [] ∧
    (compute_intraday_reversals dfs levels lc atr).2 ≠ [] ∧
    (∀ s ∈ (compute_intraday_reversals dfs levels lc atr).1, s ≤ lc) ∧
    (∀ r ∈ (compute_intraday_reversals dfs levels lc atr).2, lc ≤ r) := by
  obtain ⟨hSne, hSle⟩ :=
    rank_levels_max_price _ lc levels false "distance" lc hlev h1
  obtain ⟨hRne, hRge⟩ :=
    rank_levels_min_price _ lc levels true "distance" lc hlev h2
  simp only [compute_intraday_reversals]
  set sc := (intraday_candidates (tailRows INTRADAY_LOOKBACK_BARS dfs)).1 with hsc
  set rc := (intraday_candidates (tailRows INTRADAY_LOOKBACK_BARS dfs)).2 with hrc
  set S1 := rank_levels (merge_candidates_by_atr sc (atr.getD 0) true) lc levels
    false "distance" none (some lc) with hS1
  have hmin1 : (if S1.isEmpty = true then lc else max lc (listMaxD S1 0)) = lc := by
    rw [if_neg (by simpa [List.isEmpty_iff] using hSne)]
    exact max_eq_left (listMaxD_le_of_ne_nil 0 hSne hSle)
  rw [hmin1]
  set R1 := rank_levels (merge_candidates_by_atr rc (atr.getD 0) false) lc levels
    true "distance" (some lc) none with hR1
  have hkeepS : ∀ p : ℚ,
      (match (none : Option ℚ) with
       | some mm => decide (p < mm)
       | none => false) = false →
      (match (some lc : Option ℚ) with
       | some mm => decide (mm < p)
       | none => false) = false → p ≤ lc := by
    intro p _ hmax
    exact le_of_not_lt (by simpa using hmax)
  have hkeepR : ∀ p : ℚ,
      (match (some lc : Option ℚ) with
       | some mm => decide (p < mm)
       | none => false) = false →
      (match (none : Option ℚ) with
       | some mm => decide (mm < p)
       | none => false) = false → lc ≤ p := by
    intro p hmin _
    exact le_of_not_lt (by simpa using hmin)
  by_cases htol : 0 < atr.getD (0 : ℚ)
  · simp only [if_pos htol]
    set S2 := fill_levels_from_candidates S1 sc (atr.getD 0) levels true none
      (some lc) with hS2
    have hS2ne : S2 ≠ [] := fill_levels_ne_nil S1 sc (atr.getD 0) levels true
      none (some lc) hSne
    have hS2le : ∀ x ∈ S2, x ≤ lc :=
      fill_levels_bound S1 sc (atr.getD 0) levels true none (some lc) hkeepS hSle
    have hmin2 : (if S2.isEmpty = true then lc else max lc (listMaxD S2 0)) = lc := by
      rw [if_neg (by simpa [List.isEmpty_iff] using hS2ne)]
      exact max_eq_left (listMaxD_le_of_ne_nil 0 hS2ne hS2le)
    rw [hmin2]
    set R2 := fill_levels_from_candidates R1 rc (atr.getD 0) levels false
      (some lc) none with hR2
    have hR2ne : R2 ≠ [] := fill_levels_ne_nil R1 rc (atr.getD 0) levels false
      (some lc) none hRne
    have hR2ge : ∀ x ∈ R2, lc ≤ x :=
      fill_levels_bound R1 rc (atr.getD 0) levels false (some lc) none hkeepR hRge
    rw [if_neg (by simpa [List.isEmpty_iff] using hS2ne),
      if_neg (by simpa [List.isEmpty_iff] using hR2ne)]
    exact ⟨hS2ne, hR2ne, hS2le, hR2ge⟩
  · simp only [if_neg htol]
    rw [if_neg (by simpa [List.isEmpty_iff] using hSne),
      if_neg (by simpa [List.isEmpty_iff] using hRne)]
    exact ⟨hSne, hRne, hSle, hRge⟩

/-- Claim C1 (amended): for the intraday interval, the invariant — both
lists non-empty, every resistance at or above the last close, and
min(resistances) ≥ max(supports) — holds whenever, additionally, some merged
support candidate's rounded price is at or below the last close and some
merged resistance candidate's rounded price is at or above it (so that
neither side engages the constraint-fallback of `_rank_levels`, which can
otherwise return a resistance below the last close). -/
theorem claim_C1_amended (df : List Bar) (levels : ℕ) (atr_value : Option ℚ)
    (working : List Bar) (last_close : ℚ) (atr : Option ℚ)
    (hw : working = List.insertionSort (fun a b : Bar => a.ts ≤ b.ts) df)
    (hwne : working ≠ [])
    (hlc : last_close = (working.getLastD default).close)
    (hatr : atr = (match atr_value with
                   | some v => some v
                   | none => compute_atr working 14))
    (hlev : 1 ≤ levels)
    (h1 : ∃ c ∈ merge_candidates_by_atr
        (intraday_candidates (tailRows INTRADAY_LOOKBACK_BARS working)).1
        (atr.getD 0) true, roundTo 4 c.1 ≤ last_close)
    (h2 : ∃ c ∈ merge_candidates_by_atr
        (intraday_candidates (tailRows INTRADAY_LOOKBACK_BARS working)).2
        (atr.getD 0) false, last_close ≤ roundTo 4 c.1) :
    (compute_support_resistance df "1h" levels atr_value).1 ≠ [] ∧
    (compute_support_resistance df "1h" levels atr_value).2 ≠ [] ∧
    (∀ r ∈ (compute_support_resistance df "1h" levels atr_value).2,
      last_close ≤ r) ∧
    (∀ s ∈ (compute_support_resistance df "1h" levels atr_value).1,
      ∀ r ∈ (compute_support_resistance df "1h" levels atr_value).2, s ≤ r) := by
  have hok := compute_intraday_ok working levels last_close atr hlev h1 h2
  have hres : compute_support_resistance df "1h" levels atr_value
      = compute_intraday_reversals working levels last_close atr := by
    simp only [compute_support_resistance]
    rw [← hw]
    rw [if_neg (by simpa [List.isEmpty_iff] using hwne)]
    have h1h : (strLower "1h" = "1h") = True := eq_true (by decide)
    simp only [h1h, if_true]
    rw [← hlc, ← hatr]
    rw [if_neg (by simpa [List.isEmpty_iff] using hok.1),
      if_neg (by simpa [List.isEmpty_iff] using hok.2.1)]
  refine ⟨?_, ?_, ?_, ?_⟩ <;> rw [hres]
  · exact hok.1
  · exact hok.2.1
  · exact hok.2.2.2
  · intro s hs r hr
    exact le_trans (hok.2.2.1 s hs) (hok.2.2.2 r hr)

/-- Claim C1 counterexample: on an eight-bar intraday frame whose only
resistance candidate (the session high 100 of the first session) lies below
the last close 105, the constraint-fallback of `_rank_levels` reinstates
that candidate, and `compute_support_resistance` returns the non-empty
lists `([90], [100])` although the resistance 100 is below the last close
105.  The claim's invariant "every resistance ≥ last close" is therefore
false at this input. -/
theorem claim_C1_counterexample :
    compute_support_resistance
      [ ⟨0, 96, 100, 95, 96⟩, ⟨1, 96, 96, 90, 95⟩, ⟨2, 95, 97, 91, 96⟩,
        ⟨3, 96, 97, 92, 96⟩, ⟨4, 96, 98, 93, 97⟩, ⟨5, 97, 99, 94, 98⟩,
        ⟨24, 101, 102, 101, 102⟩, ⟨25, 104, 106, 104, 105⟩ ] "1h" 2 (some 1)
      = ([90], [100]) ∧
    ((List.insertionSort (fun a b : Bar => a.ts ≤ b.ts)
      [ ⟨0, 96, 100, 95, 96⟩, ⟨1, 96, 96, 90, 95⟩, ⟨2, 95, 97, 91, 96⟩,
        ⟨3, 96, 97, 92, 96⟩, ⟨4, 96, 98, 93, 97⟩, ⟨5, 97, 99, 94, 98⟩,
        ⟨24, 101, 102, 101, 102⟩, ⟨25, 104, 106, 104, 105⟩ ]).getLastD
        default).close = 105 ∧
    ¬ (∀ r ∈ (compute_support_resistance
      [ ⟨0, 96, 100, 95, 96⟩, ⟨1, 96, 96, 90, 95⟩, ⟨2, 95, 97, 91, 96⟩,
        ⟨3, 96, 97, 92, 96⟩, ⟨4, 96, 98, 93, 97⟩, ⟨5, 97, 99, 94, 98⟩,
        ⟨24, 101, 102, 101, 102⟩, ⟨25, 104, 106, 104, 105⟩ ] "1h" 2
        (some 1)).2, (105 : ℚ) ≤ r) := by
  have hsort : List.insertionSort (fun a b : Bar => a.ts ≤ b.ts)
      [ ⟨0, 96, 100, 95, 96⟩, ⟨1, 96, 96, 90, 95⟩, ⟨2, 95, 97, 91, 96⟩,
        ⟨3, 96, 97, 92, 96⟩, ⟨4, 96, 98, 93, 97⟩, ⟨5, 97, 99, 94, 98⟩,
        ⟨24, 101, 102, 101, 102⟩, ⟨25, 104, 106, 104, 105⟩ ]
      = [ ⟨0, 96, 100, 95, 96⟩, ⟨1, 96, 96, 90, 95⟩, ⟨2, 95, 97, 91, 96⟩,
        ⟨3, 96, 97, 92, 96⟩, ⟨4, 96, 98, 93, 97⟩, ⟨5, 97, 99, 94, 98⟩,
        ⟨24, 101, 102, 101, 102⟩, ⟨25, 104, 106, 104, 105⟩ ] := rfl
  have hcand : intraday_candidates (tailRows INTRADAY_LOOKBACK_BARS
      [ ⟨0, 96, 100, 95, 96⟩, ⟨1, 96, 96, 90, 95⟩, ⟨2, 95, 97, 91, 96⟩,
        ⟨3, 96, 97, 92, 96⟩, ⟨4, 96, 98, 93, 97⟩, ⟨5, 97, 99, 94, 98⟩,
        ⟨24, 101, 102, 101, 102⟩, ⟨25, 104, 106, 104, 105⟩ ])
      = ([((90 : ℚ), (1 : ℤ))], [((100 : ℚ), (0 : ℤ))]) := by decide
  have hm1 : merge_candidates_by_atr [((90 : ℚ), (1 : ℤ))] 1 true
      = [((90 : ℚ), (1 : ℤ))] := by decide
  have hm2 : merge_candidates_by_atr [((100 : ℚ), (0 : ℤ))] 1 false
      = [((100 : ℚ), (0 : ℤ))] := by decide
  have hlast : (([ ⟨0, 96, 100, 95, 96⟩, ⟨1, 96, 96, 90, 95⟩,
      ⟨2, 95, 97, 91, 96⟩, ⟨3, 96, 97, 92, 96⟩, ⟨4, 96, 98, 93, 97⟩,
      ⟨5, 97, 99, 94, 98⟩, ⟨24, 101, 102, 101, 102⟩,
      ⟨25, 104, 106, 104, 105⟩ ] : List Bar).getLastD default).close
      = 105 := rfl
  have hds : (("distance" : String) = "structure_first") = False := by decide
  have hr1 : rank_levels [((90 : ℚ), (1 : ℤ))] 105 2 false "distance"
      none (some 105) = [90] := by
    norm_num [rank_levels, dedupRound4, applyPriceConstraints, roundTo,
      roundHalfEven, distanceRel, List.insertionSort, List.orderedInsert,
      List.filter, hds]
  have hr2 : rank_levels [((100 : ℚ), (0 : ℤ))] 105 2 true "distance"
      (some 105) none = [100] := by
    norm_num [rank_levels, dedupRound4, applyPriceConstraints, roundTo,
      roundHalfEven, distanceRel, List.insertionSort, List.orderedInsert,
      List.filter, hds]
  have hf1 : fill_levels_from_candidates [90] [((90 : ℚ), (1 : ℤ))] 1 2
      true none (some 105) = [90] := by
    norm_num [fill_levels_from_candidates, sortLevels, List.insertionSort,
      List.orderedInsert]
  have hf2 : fill_levels_from_candidates [100] [((100 : ℚ), (0 : ℤ))] 1 2
      false (some 105) none = [100] := by
    norm_num [fill_levels_from_candidates, sortLevels, List.insertionSort,
      List.orderedInsert]
  have h1h : (strLower "1h" = "1h") = True := by decide
  have hmax : max (105 : ℚ) 90 = 105 := by norm_num
  have hres : compute_support_resistance
      [ ⟨0, 96, 100, 95, 96⟩, ⟨1, 96, 96, 90, 95⟩, ⟨2, 95, 97, 91, 96⟩,
        ⟨3, 96, 97, 92, 96⟩, ⟨4, 96, 98, 93, 97⟩, ⟨5, 97, 99, 94, 98⟩,
        ⟨24, 101, 102, 101, 102⟩, ⟨25, 104, 106, 104, 105⟩ ] "1h" 2 (some 1)
      = ([90], [100]) := by
    norm_num [compute_support_resistance, compute_intraday_reversals,
      hsort, hcand, hm1, hm2, hr1, hr2, hf1, hf2, hlast, h1h, hmax,
      listMaxD, List.getLastD]
  refine ⟨hres, rfl, ?_⟩
  rw [hres]
  intro hall
  exact absurd (hall 100 (by simp)) (by norm_num)

/-- Witness for the amended claim C1: on an eight-bar intraday frame with
last close 100, a merged support candidate at 90 and a merged resistance
candidate at 110, the returned lists are non-empty, every resistance is at
or above the last close, and no support exceeds any resistance. -/
theorem claim_C1_amended_witness :
    (compute_support_resistance
      [ ⟨0, 100, 110, 95, 100⟩, ⟨1, 96, 96, 90, 95⟩, ⟨2, 95, 97, 91, 96⟩,
        ⟨3, 96, 98, 92, 96⟩, ⟨4, 96, 99, 93, 97⟩, ⟨5, 97, 99, 94, 98⟩,
        ⟨6, 98, 99, 95, 99⟩, ⟨7, 99, 100, 96, 100⟩ ] "1h" 2 (some 1)).1
      ≠ [] ∧
    (compute_support_resistance
      [ ⟨0, 100, 110, 95, 100⟩, ⟨1, 96, 96, 90, 95⟩, ⟨2, 95, 97, 91, 96⟩,
        ⟨3, 96, 98, 92, 96⟩, ⟨4, 96, 99, 93, 97⟩, ⟨5, 97, 99, 94, 98⟩,
        ⟨6, 98, 99, 95, 99⟩, ⟨7, 99, 100, 96, 100⟩ ] "1h" 2 (some 1)).2
      ≠ [] ∧
    (∀ r ∈ (compute_support_resistance
      [ ⟨0, 100, 110, 95, 100⟩, ⟨1, 96, 96, 90, 95⟩, ⟨2, 95, 97, 91, 96⟩,
        ⟨3, 96, 98, 92, 96⟩, ⟨4, 96, 99, 93, 97⟩, ⟨5, 97, 99, 94, 98⟩,
        ⟨6, 98, 99, 95, 99⟩, ⟨7, 99, 100, 96, 100⟩ ] "1h" 2 (some 1)).2,
      (100 : ℚ) ≤ r) ∧
    (∀ s ∈ (compute_support_resistance
      [ ⟨0, 100, 110, 95, 100⟩, ⟨1, 96, 96, 90, 95⟩, ⟨2, 95, 97, 91, 96⟩,
        ⟨3, 96, 98, 92, 96⟩, ⟨4, 96, 99, 93, 97⟩, ⟨5, 97, 99, 94, 98⟩,
        ⟨6, 98, 99, 95, 99⟩, ⟨7, 99, 100, 96, 100⟩ ] "1h" 2 (some 1)).1,
      ∀ r ∈ (compute_support_resistance
      [ ⟨0, 100, 110, 95, 100⟩, ⟨1, 96, 96, 90, 95⟩, ⟨2, 95, 97, 91, 96⟩,
        ⟨3, 96, 98, 92, 96⟩, ⟨4, 96, 99, 93, 97⟩, ⟨5, 97, 99, 94, 98⟩,
        ⟨6, 98, 99, 95, 99⟩, ⟨7, 99, 100, 96, 100⟩ ] "1h" 2 (some 1)).2,
      s ≤ r) :=
  claim_C1_amended
    [ ⟨0, 100, 110, 95, 100⟩, ⟨1, 96, 96, 90, 95⟩, ⟨2, 95, 97, 91, 96⟩,
      ⟨3, 96, 98, 92, 96⟩, ⟨4, 96, 99, 93, 97⟩, ⟨5, 97, 99, 94, 98⟩,
      ⟨6, 98, 99, 95, 99⟩, ⟨7, 99, 100, 96, 100⟩ ] 2 (some 1)
    [ ⟨0, 100, 110, 95, 100⟩, ⟨1, 96, 96, 90, 95⟩, ⟨2, 95, 97, 91, 96⟩,
      ⟨3, 96, 98, 92, 96⟩, ⟨4, 96, 99, 93, 97⟩, ⟨5, 97, 99, 94, 98⟩,
      ⟨6, 98, 99, 95, 99⟩, ⟨7, 99, 100, 96, 100⟩ ] 100 (some 1)
    rfl (by simp) rfl rfl (by norm_num)
    ⟨((90 : ℚ), (1 : ℤ)), by decide, by norm_num [roundTo, roundHalfEven]⟩
    ⟨((110 : ℚ), (0 : ℤ)), by decide, by norm_num [roundTo, roundHalfEven]⟩

/-! ### Claim C2 -/

lemma maxByFirst_mem {α β : Type} [LinearOrder β] (key : α → β) :
    ∀ (t : List α) (h : α), maxByFirst key h t = h ∨ maxByFirst key h t ∈ t := by
  intro t
  induction t with
  | nil => intro h; left; rfl
  | cons x t ih =>
      intro h
      simp only [maxByFirst, List.foldl_cons] at *
      rcases ih (if key h < key x then x else h) with heq | hmem
      · rw [heq]
        by_cases hc : key h < key x
        · simp [hc]
        · simp [hc]
      · right
        exact List.mem_cons_of_mem x hmem

lemma clusterRep_mem_aux (hd : Cand) (tl : List Cand) (key : Cand → ℚ) :
    (match (hd :: tl).filter
        (fun c => decide (c.1 = (maxByFirst key hd tl).1)) with
      | [] => ((0 : ℚ), (0 : ℤ))
      | h2 :: t2 => maxByFirst (fun c : Cand => c.2) h2 t2) ∈ hd :: tl := by
  have hM : maxByFirst key hd tl ∈ hd :: tl := by
    rcases maxByFirst_mem key tl hd with heq | hm
    · rw [heq]; exact List.mem_cons_self _ _
    · exact List.mem_cons_of_mem _ hm
  have hMf : maxByFirst key hd tl ∈ (hd :: tl).filter
      (fun c => decide (c.1 = (maxByFirst key hd tl).1)) :=
    List.mem_filter.mpr ⟨hM, by simp⟩
  cases hfil : (hd :: tl).filter
      (fun c => decide (c.1 = (maxByFirst key hd tl).1)) with
  | nil => rw [hfil] at hMf; exact absurd hMf (List.not_mem_nil _)
  | cons f1 ft =>
      have hsub : ∀ y ∈ f1 :: ft, y ∈ hd :: tl := by
        intro y hy
        rw [← hfil] at hy
        exact (List.mem_filter.mp hy).1
      show maxByFirst (fun c : Cand => c.2) f1 ft ∈ hd :: tl
      rcases maxByFirst_mem (fun c : Cand => c.2) ft f1 with heq | hm
      · exact hsub _ (by rw [heq]; exact List.mem_cons_self _ _)
      · exact hsub _ (List.mem_cons_of_mem _ hm)

lemma clusterRep_mem (mid : ℚ) (s : Bool) (cl : List Cand) (h : cl ≠ []) :
    clusterRep mid s cl ∈ cl := by
  obtain ⟨hd, tl, rfl⟩ := List.exists_cons_of_ne_nil h
  cases s with
  | true =>
      simp only [clusterRep, if_true]
      exact clusterRep_mem_aux hd tl (fun c : Cand => |c.1 - mid|)
  | false =>
      simp only [clusterRep, Bool.false_eq_true, if_false]
      exact clusterRep_mem_aux hd tl (fun c : Cand => c.1)

lemma placeInClusters_mem (tol : ℚ) (c : Cand) :
    ∀ (clusters : List (List Cand)), ∀ cl ∈ placeInClusters tol clusters c,
      ∀ a ∈ cl, (∃ cl0 ∈ clusters, a ∈ cl0) ∨ a = c := by
  intro clusters
  induction clusters with
  | nil =>
      intro cl hcl a ha
      simp only [placeInClusters, List.mem_singleton] at hcl
      subst hcl
      simp only [List.mem_singleton] at ha
      right; exact ha
  | cons cl0 rest ih =>
      intro cl hcl a ha
      simp only [placeInClusters] at hcl
      by_cases hany : cl0.any (fun e => decide (|c.1 - e.1| < tol)) = true
      · rw [if_pos hany] at hcl
        rcases List.mem_cons.mp hcl with rfl | hmem
        · rcases List.mem_append.mp ha with h1 | h2
          · exact Or.inl ⟨cl0, by simp, h1⟩
          · right; simpa using h2
        · exact Or.inl ⟨cl, by simp [hmem], ha⟩
      · rw [if_neg hany] at hcl
        rcases List.mem_cons.mp hcl with rfl | hmem
        · exact Or.inl ⟨cl, by simp, ha⟩
        · rcases ih cl hmem a ha with ⟨cl1, hcl1, ha1⟩ | heq
          · exact Or.inl ⟨cl1, by simp [hcl1], ha1⟩
          · right; exact heq

lemma placeInClusters_all_ne_nil (tol : ℚ) (c : Cand) :
    ∀ (clusters : List (List Cand)), (∀ cl ∈ clusters, cl ≠ []) →
      ∀ cl ∈ placeInClusters tol clusters c, cl ≠ [] := by
  intro clusters
  induction clusters with
  | nil =>
      intro _ cl hcl
      simp only [placeInClusters, List.mem_singleton] at hcl
      subst hcl
      simp
  | cons cl0 rest ih =>
      intro hne cl hcl
      simp only [placeInClusters] at hcl
      by_cases hany : cl0.any (fun e => decide (|c.1 - e.1| < tol)) = true
      · rw [if_pos hany] at hcl
        rcases List.mem_cons.mp hcl with rfl | hmem
        · simp
        · exact hne cl (by simp [hmem])
      · rw [if_neg hany] at hcl
        rcases List.mem_cons.mp hcl with rfl | hmem
        · exact hne cl (by simp)
        · exact ih (fun x hx => hne x (by simp [hx])) cl hmem

lemma placeInClusters_sep (tol : ℚ) (c : Cand) :
    ∀ (clusters : List (List Cand)),
      (∀ cl ∈ clusters, cl ≠ []) →
      (∀ cl ∈ clusters, ∀ a ∈ cl, a.1 ≤ c.1) →
      List.Pairwise (fun A B => ∀ a ∈ A, ∀ b ∈ B, a.1 + tol ≤ b.1) clusters →
      List.Pairwise (fun A B => ∀ a ∈ A, ∀ b ∈ B, a.1 + tol ≤ b.1)
        (placeInClusters tol clusters c) := by
  intro clusters
  induction clusters with
  | nil =>
      intro _ _ _
      simp only [placeInClusters]
      exact List.pairwise_singleton _ _
  | cons cl0 rest ih =>
      intro hne hbd hsep
      simp only [placeInClusters]
      by_cases hany : cl0.any (fun e => decide (|c.1 - e.1| < tol)) = true
      · rw [if_pos hany]
        cases rest with
        | nil => exact List.pairwise_singleton _ _
        | cons B rest2 =>
            exfalso
            obtain ⟨e, he, hedec⟩ := List.any_eq_true.mp hany
            have hlt : |c.1 - e.1| < tol := of_decide_eq_true hedec
            obtain ⟨b, hb⟩ := List.exists_mem_of_ne_nil B (hne B (by simp))
            have hseb : e.1 + tol ≤ b.1 :=
              (List.pairwise_cons.mp hsep).1 B (by simp) e he b hb
            have hbc : b.1 ≤ c.1 := hbd B (by simp) b hb
            have habs : tol ≤ |c.1 - e.1| :=
              le_trans (by linarith) (le_abs_self (c.1 - e.1))
            linarith
      · rw [if_neg hany]
        have hforall : ∀ e ∈ cl0, tol ≤ |c.1 - e.1| := by
          intro e he
          by_contra hcon
          exact hany (List.any_eq_true.mpr ⟨e, he, decide_eq_true (not_le.mp hcon)⟩)
        rw [List.pairwise_cons]
        constructor
        · intro X hX a ha b hb
          rcases placeInClusters_mem tol c rest X hX b hb with ⟨cl1, hcl1, hb1⟩ | rfl
          · exact (List.pairwise_cons.mp hsep).1 cl1 hcl1 a ha b hb1
          · have h1 := hforall a ha
            have h2 : a.1 ≤ b.1 := hbd cl0 (by simp) a ha
            have h3 : |b.1 - a.1| = b.1 - a.1 := abs_of_nonneg (by linarith)
            rw [h3] at h1
            linarith
        · exact ih (fun x hx => hne x (by simp [hx]))
            (fun x hx a ha => hbd x (by simp [hx]) a ha)
            (List.pairwise_cons.mp hsep).2

lemma clusters_fold_sep (tol : ℚ) :
    ∀ (l : List Cand) (acc : List (List Cand)),
    List.Pairwise (fun a b : Cand => a.1 ≤ b.1) l →
    (∀ cl ∈ acc, cl ≠ []) →
    List.Pairwise (fun A B => ∀ a ∈ A, ∀ b ∈ B, a.1 + tol ≤ b.1) acc →
    (∀ cl ∈ acc, ∀ a ∈ cl, ∀ x ∈ l, a.1 ≤ x.1) →
    (∀ cl ∈ l.foldl (placeInClusters tol) acc, cl ≠ []) ∧
    List.Pairwise (fun A B => ∀ a ∈ A, ∀ b ∈ B, a.1 + tol ≤ b.1)
      (l.foldl (placeInClusters tol) acc) := by
  intro l
  induction l with
  | nil =>
      intro acc _ h1 h2 _
      exact ⟨h1, h2⟩
  | cons c rest ih =>
      intro acc hsort hne hsep hbd
      simp only [List.foldl_cons]
      apply ih
      · exact (List.pairwise_cons.mp hsort).2
      · exact placeInClusters_all_ne_nil tol c acc hne
      · exact placeInClusters_sep tol c acc hne
          (fun cl hcl a ha => hbd cl hcl a ha c (by simp)) hsep
      · intro cl hcl a ha x hx
        rcases placeInClusters_mem tol c acc cl hcl a ha with ⟨cl0, hcl0, ha0⟩ | rfl
        · exact hbd cl0 hcl0 a ha0 x (by simp [hx])
        · exact (List.pairwise_cons.mp hsort).1 x hx

/-- Claim C2 counterexample: on a six-bar intraday frame producing no
confirmed reversal candidate on either side, both lists come from the
extremes fallback: with merge tolerance `T = ATR = 5 > 0` the engine
returns supports `[97, 98]`, two values `1` apart — closer than `T`.  The
claim, which asserts the separation for the returned lists of the engine,
is false at this input. -/
theorem claim_C2_counterexample :
    compute_support_resistance
      [ ⟨0, 100, 105, 99, 100⟩, ⟨1, 100, 103, 98, 101⟩,
        ⟨2, 101, 104, 100, 102⟩, ⟨3, 102, 104, 100, 103⟩,
        ⟨4, 103, 103, 101, 102⟩, ⟨5, 102, 110, 97, 105⟩ ] "1h" 2 (some 5)
      = ([97, 98], [110, 105]) ∧
    (0 : ℚ) < 5 ∧
    ¬ List.Pairwise (fun a b : ℚ => 5 ≤ |a - b|)
        (compute_support_resistance
          [ ⟨0, 100, 105, 99, 100⟩, ⟨1, 100, 103, 98, 101⟩,
            ⟨2, 101, 104, 100, 102⟩, ⟨3, 102, 104, 100, 103⟩,
            ⟨4, 103, 103, 101, 102⟩, ⟨5, 102, 110, 97, 105⟩ ] "1h" 2
          (some 5)).1 := by
  have hcand : intraday_candidates
      [ ⟨0, 100, 105, 99, 100⟩, ⟨1, 100, 103, 98, 101⟩,
        ⟨2, 101, 104, 100, 102⟩, ⟨3, 102, 104, 100, 103⟩,
        ⟨4, 103, 103, 101, 102⟩, ⟨5, 102, 110, 97, 105⟩ ]
      = (([] : List Cand), ([] : List Cand)) := by decide
  have hfb : fallback_extremes
      [ ⟨0, 100, 105, 99, 100⟩, ⟨1, 100, 103, 98, 101⟩,
        ⟨2, 101, 104, 100, 102⟩, ⟨3, 102, 104, 100, 103⟩,
        ⟨4, 103, 103, 101, 102⟩, ⟨5, 102, 110, 97, 105⟩ ] 2
      = ([97, 98], [110, 105]) := by
    norm_num [fallback_extremes, roundTo, roundHalfEven, List.insertionSort,
      List.orderedInsert]
  have hres : compute_support_resistance
      [ ⟨0, 100, 105, 99, 100⟩, ⟨1, 100, 103, 98, 101⟩,
        ⟨2, 101, 104, 100, 102⟩, ⟨3, 102, 104, 100, 103⟩,
        ⟨4, 103, 103, 101, 102⟩, ⟨5, 102, 110, 97, 105⟩ ] "1h" 2 (some 5)
      = ([97, 98], [110, 105]) := by
    have hsort : List.insertionSort (fun a b : Bar => a.ts ≤ b.ts)
        [ ⟨0, 100, 105, 99, 100⟩, ⟨1, 100, 103, 98, 101⟩,
          ⟨2, 101, 104, 100, 102⟩, ⟨3, 102, 104, 100, 103⟩,
          ⟨4, 103, 103, 101, 102⟩, ⟨5, 102, 110, 97, 105⟩ ]
        = [ ⟨0, 100, 105, 99, 100⟩, ⟨1, 100, 103, 98, 101⟩,
          ⟨2, 101, 104, 100, 102⟩, ⟨3, 102, 104, 100, 103⟩,
          ⟨4, 103, 103, 101, 102⟩, ⟨5, 102, 110, 97, 105⟩ ] := rfl
    have htail : tailRows INTRADAY_LOOKBACK_BARS
        ([ ⟨0, 100, 105, 99, 100⟩, ⟨1, 100, 103, 98, 101⟩,
          ⟨2, 101, 104, 100, 102⟩, ⟨3, 102, 104, 100, 103⟩,
          ⟨4, 103, 103, 101, 102⟩, ⟨5, 102, 110, 97, 105⟩ ] : List Bar)
        = [ ⟨0, 100, 105, 99, 100⟩, ⟨1, 100, 103, 98, 101⟩,
          ⟨2, 101, 104, 100, 102⟩, ⟨3, 102, 104, 100, 103⟩,
          ⟨4, 103, 103, 101, 102⟩, ⟨5, 102, 110, 97, 105⟩ ] := rfl
    have hm1 : merge_candidates_by_atr [] 5 true = [] := rfl
    have hm2 : merge_candidates_by_atr [] 5 false = [] := rfl
    have hr1 : rank_levels [] 105 2 false "distance" none (some 105) = [] := rfl
    have hr2 : rank_levels [] 105 2 true "distance" (some 105) none = [] := rfl
    have hf1 : fill_levels_from_candidates [] [] 5 2 true none (some 105)
        = [] := rfl
    have hf2 : fill_levels_from_candidates [] [] 5 2 false (some 105) none
        = [] := rfl
    have h1h : (strLower "1h" = "1h") = True := by decide
    norm_num [compute_support_resistance, compute_intraday_reversals, hsort,
      htail, hcand, hm1, hm2, hr1, hr2, hf1, hf2, h1h, hfb, List.getLastD]
  refine ⟨hres, by norm_num, ?_⟩
  rw [hres]
  intro hp
  have h := (List.pairwise_cons.mp hp).1 98 (by simp)
  have habs : |(97 : ℚ) - 98| = 1 := by
    rw [abs_of_nonpos (by norm_num)]
    norm_num
  rw [habs] at h
  norm_num at h

/-- Claim C2 (amended): the separation holds for the CLUSTERED candidate
list: for any positive merge tolerance `T`, no two candidates returned by
the ATR merge step (`_merge_candidates_by_atr`) have prices closer than
`T`.  (The engine's final lists can still violate the separation when a
side falls back to raw extremes, as the counterexample shows.) -/
theorem claim_C2_amended (candidates : List Cand) (tol : ℚ) (is_support : Bool)
    (htol : 0 < tol) :
    List.Pairwise (fun a b : Cand => tol ≤ |a.1 - b.1|)
      (merge_candidates_by_atr candidates tol is_support) := by
  simp only [merge_candidates_by_atr]
  by_cases hemp : candidates.isEmpty = true
  · rw [if_pos hemp]
    exact List.Pairwise.nil
  · rw [if_neg hemp, if_neg (not_le.mpr htol)]
    haveI : IsTotal Cand (fun a b : Cand => a.1 ≤ b.1) :=
      ⟨fun a b => le_total a.1 b.1⟩
    haveI : IsTrans Cand (fun a b : Cand => a.1 ≤ b.1) :=
      ⟨fun a b c hab hbc => le_trans hab hbc⟩
    have hsorted : List.Pairwise (fun a b : Cand => a.1 ≤ b.1)
        (List.insertionSort (fun a b : Cand => a.1 ≤ b.1) candidates) :=
      List.sorted_insertionSort _ candidates
    obtain ⟨hclne, hclsep⟩ := clusters_fold_sep tol
      (List.insertionSort (fun a b : Cand => a.1 ≤ b.1) candidates) []
      hsorted (by simp) (by simp) (by simp)
    have hsymm : Symmetric (fun a b : Cand => tol ≤ |a.1 - b.1|) := by
      intro a b h
      rwa [abs_sub_comm]
    have hreps : List.Pairwise (fun a b : Cand => tol ≤ |a.1 - b.1|)
        (((List.insertionSort (fun a b : Cand => a.1 ≤ b.1)
            candidates).foldl (placeInClusters tol) []).map
          (clusterRep ((listMinD (candidates.map (fun c => c.1)) 0 +
            listMaxD (candidates.map (fun c => c.1)) 0) / 2) is_support)) := by
      rw [List.pairwise_map]
      refine List.Pairwise.imp_of_mem ?_ hclsep
      intro A B hA hB hAB
      have hrA := clusterRep_mem ((listMinD (candidates.map (fun c => c.1)) 0 +
        listMaxD (candidates.map (fun c => c.1)) 0) / 2) is_support A (hclne A hA)
      have hrB := clusterRep_mem ((listMinD (candidates.map (fun c => c.1)) 0 +
        listMaxD (candidates.map (fun c => c.1)) 0) / 2) is_support B (hclne B hB)
      have hle := hAB _ hrA _ hrB
      rw [abs_sub_comm]
      exact le_trans (by linarith) (le_abs_self _)
    simp only [sortCandsByPrice]
    cases is_support with
    | true =>
        simp only [if_true]
        exact hreps.perm (List.perm_insertionSort _ _).symm (fun h => hsymm h)
    | false =>
        simp only [Bool.false_eq_true, if_false]
        exact hreps.perm (List.perm_insertionSort _ _).symm (fun h => hsymm h)

/-- Witness for the amended claim C2: merging the candidates at prices
`0`, `1/2` and `2` with tolerance `1` yields a list in which any two prices
are at least `1` apart. -/
theorem claim_C2_amended_witness :
    List.Pairwise (fun a b : Cand => 1 ≤ |a.1 - b.1|)
      (merge_candidates_by_atr [((0 : ℚ), (0 : ℤ)), (1/2, 1), (2, 2)] 1 true) :=
  claim_C2_amended [((0 : ℚ), (0 : ℤ)), (1/2, 1), (2, 2)] 1 true (by norm_num)
